import Mathlib

/-!
# SimpleEQ: response curve and spectrum path producer

A shallow embedding of `Source/PluginEditor.cpp`:

* `ResponseCurveComponent::paint` — the per-column magnitude of the filter chain,
  the pixel-to-frequency map and the decibel-to-pixel map;
* `ResponseCurveComponent::parameterValueChanged` / `timerCallback` — the dirty flag;
* `PathProducer::process` — the rolling mono buffer and the three drain loops.

Sample values, spectral frames and paths are only moved around by `process`,
so they are type parameters.  Arithmetic on `double` is read over
an ordered field (the rationals when evaluated, the reals for `log`/`pow`).
-/

namespace SimpleEQ

/-! ## Filter chain (`MonoChain`) as read by `paint` -/

/-- The four-stage cut filter `CutFilter = ProcessorChain<Filter, Filter, Filter, Filter>`:
the coefficient set of stage `k` (`get<k>().coefficients`) and its bypass flag
(`isBypassed<k>()`). `C` is the coefficient-set type. -/
structure CutFilter (C : Type) where
  coefficients : Fin 4 → C
  bypassed : Fin 4 → Bool

/-- The chain `MonoChain = ProcessorChain<CutFilter, Filter, CutFilter>` with the bypass
flag of each of its three positions (`isBypassed<ChainPositions::...>()`). -/
structure MonoChain (C : Type) where
  lowcut : CutFilter C
  peak : C
  highcut : CutFilter C
  lowCutBypassed : Bool
  peakBypassed : Bool
  highCutBypassed : Bool

/-- One `if (!cut.isBypassed<k>()) mag *= cut.get<k>().coefficients->getMagnitudeForFrequency(freq, sampleRate);`
statement of `paint`. -/
def cutStageStep {C K M : Type} [Mul M] (getMagnitudeForFrequency : C → K → K → M)
    (cut : CutFilter C) (k : Fin 4) (freq sampleRate : K) (mag : M) : M :=
  if !cut.bypassed k then mag * getMagnitudeForFrequency (cut.coefficients k) freq sampleRate
  else mag

/-- The four stage statements of one cut filter, in source order `<0>`, `<1>`, `<2>`, `<3>`. -/
def cutStages {C K M : Type} [Mul M] (getMagnitudeForFrequency : C → K → K → M)
    (cut : CutFilter C) (freq sampleRate : K) (mag : M) : M :=
  let mag := cutStageStep getMagnitudeForFrequency cut 0 freq sampleRate mag
  let mag := cutStageStep getMagnitudeForFrequency cut 1 freq sampleRate mag
  let mag := cutStageStep getMagnitudeForFrequency cut 2 freq sampleRate mag
  cutStageStep getMagnitudeForFrequency cut 3 freq sampleRate mag

/-- The body of the pixel loop of `ResponseCurveComponent::paint` between `double mag = 1.f;`
and the decibel conversion: the magnitude accumulated for one column, whose frequency is
`freq`. `getMagnitudeForFrequency` is the library's per-stage magnitude response. -/
def columnMagnitude {C K M : Type} [Mul M] [One M] (getMagnitudeForFrequency : C → K → K → M)
    (monoChain : MonoChain C) (freq sampleRate : K) : M :=
  let mag : M := 1
  let mag := if !monoChain.peakBypassed then
      mag * getMagnitudeForFrequency monoChain.peak freq sampleRate
    else mag
  let mag := if !monoChain.lowCutBypassed then
      cutStages getMagnitudeForFrequency monoChain.lowcut freq sampleRate mag
    else mag
  let mag := if !monoChain.highCutBypassed then
      cutStages getMagnitudeForFrequency monoChain.highcut freq sampleRate mag
    else mag
  mag

/-- The nine stages of the chain: the peak filter and the four stages of each cut filter. -/
inductive Stage where
  | peak : Stage
  | lowCut : Fin 4 → Stage
  | highCut : Fin 4 → Stage
  deriving DecidableEq, Repr

/-- All stages in the order in which `paint` visits them. -/
def Stage.all : List Stage :=
  [Stage.peak, Stage.lowCut 0, Stage.lowCut 1, Stage.lowCut 2, Stage.lowCut 3,
   Stage.highCut 0, Stage.highCut 1, Stage.highCut 2, Stage.highCut 3]

/-- The stated rule for which stages contribute: the peak stage iff the Peak position is
not bypassed; cut stage `k` iff its position is not bypassed and stage `k` is not bypassed. -/
def contributes {C : Type} (monoChain : MonoChain C) : Stage → Bool
  | Stage.peak => !monoChain.peakBypassed
  | Stage.lowCut k => !monoChain.lowCutBypassed && !monoChain.lowcut.bypassed k
  | Stage.highCut k => !monoChain.highCutBypassed && !monoChain.highcut.bypassed k

/-- The magnitude of one stage at `freq`. -/
def stageMagnitude {C K M : Type} (getMagnitudeForFrequency : C → K → K → M)
    (monoChain : MonoChain C) (freq sampleRate : K) : Stage → M
  | Stage.peak => getMagnitudeForFrequency monoChain.peak freq sampleRate
  | Stage.lowCut k => getMagnitudeForFrequency (monoChain.lowcut.coefficients k) freq sampleRate
  | Stage.highCut k => getMagnitudeForFrequency (monoChain.highcut.coefficients k) freq sampleRate

/-- The stated product: every stage contributes its magnitude if it contributes, else `1`. -/
def statedMagnitude {C K M : Type} [Mul M] [One M] (getMagnitudeForFrequency : C → K → K → M)
    (monoChain : MonoChain C) (freq sampleRate : K) : M :=
  (Stage.all.map fun s =>
    if contributes monoChain s then
      stageMagnitude getMagnitudeForFrequency monoChain freq sampleRate s
    else 1).prod

/-! ## Library functions used by `paint` -/

/-- Modelled from the spec: `juce::mapToLog10` is library code that is not part of the
sources. The spec's "inverse log-mapping" of a normalised position `value0To1` into
`[logRangeMin, logRangeMax]`, as the library defines it:
`pow (10, value0To1 * (log10 (logRangeMax) - log10 (logRangeMin)) + log10 (logRangeMin))`. -/
noncomputable def mapToLog10 (value0To1 logRangeMin logRangeMax : ℝ) : ℝ :=
  (10 : ℝ) ^ (value0To1 * (Real.logb 10 logRangeMax - Real.logb 10 logRangeMin)
    + Real.logb 10 logRangeMin)

/-- Modelled from the spec: `juce::Decibels::gainToDecibels` is library code that is not part
of the sources. The spec's `20*log10(magnitude)` with a floor `minusInfinityDb`:
`gain > 0 ? jmax (minusInfinityDb, log10 (gain) * 20) : minusInfinityDb`. -/
noncomputable def gainToDecibels (gain : ℝ) (minusInfinityDb : ℝ) : ℝ :=
  if 0 < gain then max minusInfinityDb (Real.logb 10 gain * 20) else minusInfinityDb

/-- The default floor of `gainToDecibels` when `paint` calls it with one argument. -/
def defaultMinusInfinitydB : ℤ := -100

/-- Modelled from the spec: `juce::jmap` is library code that is not part of the sources. The
spec's linear interpolation of `sourceValue` from the source range to the target range:
`targetRangeMin + ((targetRangeMax - targetRangeMin) * (sourceValue - sourceRangeMin))
  / (sourceRangeMax - sourceRangeMin)`. -/
def jmap {K : Type} [Field K]
    (sourceValue sourceRangeMin sourceRangeMax targetRangeMin targetRangeMax : K) : K :=
  targetRangeMin + ((targetRangeMax - targetRangeMin) * (sourceValue - sourceRangeMin))
    / (sourceRangeMax - sourceRangeMin)

/-- A `juce::Rectangle<int>`: position of the top-left corner, width and height. -/
structure Rectangle where
  x : ℤ
  y : ℤ
  w : ℤ
  h : ℤ
  deriving DecidableEq, Repr

/-- `Rectangle::getX`. -/
def Rectangle.getX (r : Rectangle) : ℤ := r.x

/-- `Rectangle::getY`: the top edge. -/
def Rectangle.getY (r : Rectangle) : ℤ := r.y

/-- `Rectangle::getWidth`. -/
def Rectangle.getWidth (r : Rectangle) : ℤ := r.w

/-- `Rectangle::getBottom`: the bottom edge, `y + h`. -/
def Rectangle.getBottom (r : Rectangle) : ℤ := r.y + r.h

/-! ## `ResponseCurveComponent::paint` -/

/-- The frequency of pixel column `i` of an analysis area `w` pixels wide:
`mapToLog10(double(i) / double(w), 20.0, 20000.0)`. -/
noncomputable def columnFrequency (i : ℕ) (w : ℤ) : ℝ :=
  mapToLog10 ((i : ℝ) / (w : ℝ)) 20 20000

/-- The pixel loop of `paint`: `mags[i]` for `i = 0, ..., w - 1`, each the decibel value of
the column's magnitude. -/
noncomputable def paintMags {C : Type} (getMagnitudeForFrequency : C → ℝ → ℝ → ℝ)
    (monoChain : MonoChain C) (sampleRate : ℝ) (w : ℤ) : List ℝ :=
  (List.range w.toNat).map fun i =>
    gainToDecibels
      (columnMagnitude getMagnitudeForFrequency monoChain (columnFrequency i w) sampleRate)
      defaultMinusInfinitydB

/-- The lambda `map` of `paint`: `jmap(input, -24.0, 24.0, outputMin, outputMax)` with
`outputMin = responseArea.getBottom()` and `outputMax = responseArea.getY()`. -/
def responseCurveY {K : Type} [Field K] (responseArea : Rectangle) (input : K) : K :=
  let outputMin : K := ((responseArea.getBottom : ℤ) : K)
  let outputMax : K := ((responseArea.getY : ℤ) : K)
  jmap input (-24) 24 outputMin outputMax

/-! ## The dirty flag: `parameterValueChanged` and `timerCallback` -/

/-- The part of `ResponseCurveComponent` that the dirty-flag protocol touches: the atomic
flag `parametersChanged` and the number of calls of `updateChain` made so far. -/
structure CurveState where
  parametersChanged : Bool
  updateChainCalls : ℕ
  deriving DecidableEq, Repr

/-- Modelled from the spec: `juce::Atomic<bool>::compareAndSetBool (newValue, valueToCompare)`
is library code that is not part of the sources. The spec's atomic compare-and-set: if the
flag equals `valueToCompare` it becomes `newValue` and the call returns `true`; otherwise
the flag is left alone and the call returns `false`. Returns the new flag and the result. -/
def compareAndSetBool (flag newValue valueToCompare : Bool) : Bool × Bool :=
  if flag = valueToCompare then (newValue, true) else (flag, false)

/-- `ResponseCurveComponent::parameterValueChanged`: `parametersChanged.set(true)`. -/
def parameterValueChanged (st : CurveState) : CurveState :=
  { st with parametersChanged := true }

/-- `ResponseCurveComponent::timerCallback`, restricted to the flag and `updateChain`:
`if (parametersChanged.compareAndSetBool(false, true)) updateChain();`. -/
def timerCallback (st : CurveState) : CurveState :=
  let r := compareAndSetBool st.parametersChanged false true
  if r.2 then
    { parametersChanged := r.1, updateChainCalls := st.updateChainCalls + 1 }
  else
    { parametersChanged := r.1, updateChainCalls := st.updateChainCalls }

/-- What can happen to the component: a parameter notification or a timer tick. -/
inductive Event where
  | notify : Event
  | tick : Event
  deriving DecidableEq, Repr

/-- One event applied to the state. -/
def step (st : CurveState) : Event → CurveState
  | Event.notify => parameterValueChanged st
  | Event.tick => timerCallback st

/-- A history of events, oldest first, applied to a starting state. -/
def run (st : CurveState) (history : List Event) : CurveState :=
  history.foldl step st

/-- The starting state: clear flag, no recompute yet. -/
def CurveState.clear : CurveState :=
  { parametersChanged := false, updateChainCalls := 0 }

/-- The events of a history (oldest first) that came after its last tick, or all of them
when it has no tick. -/
def sinceLastTick (history : List Event) : List Event :=
  (history.reverse.takeWhile fun e => decide (e ≠ Event.tick)).reverse

/-- The stated condition "at least one notification arrived since the previous tick". -/
def notifiedSinceLastTick (history : List Event) : Bool :=
  decide (Event.notify ∈ sinceLastTick history)

/-! ## Queues and buffers used by `PathProducer::process` -/

/-- Modelled from the spec: the queue template `Fifo` (and `SingleChannelSampleFifo`, which
wraps one) is declared in `PluginProcessor.h`, which is not part of the sources. A
fixed-capacity queue; `items` are the unread entries, oldest first. -/
structure Fifo (T : Type) where
  capacity : ℕ
  items : List T
  deriving DecidableEq, Repr

/-- Modelled from the spec: `Fifo::getNumAvailableForReading` (also behind
`getNumCompleteBuffersAvailable`, `getNumAvailableFFTDataBlocks`, `getNumPathsAvailable`),
missing with `PluginProcessor.h`: the number of unread entries. -/
def Fifo.getNumAvailableForReading {T : Type} (q : Fifo T) : ℕ :=
  q.items.length

/-- Modelled from the spec: `Fifo::pull` (also behind `getAudioBuffer`, `getFFTData`,
`getPath`), missing with `PluginProcessor.h`: "`pop() -> Optional<Block>`, non-blocking;
returns nothing if empty". Returns the oldest unread entry, if any, and the queue left. -/
def Fifo.pull {T : Type} (q : Fifo T) : Option T × Fifo T :=
  match q.items with
  | [] => (none, q)
  | t :: rest => (some t, { q with items := rest })

/-- Modelled from the spec: `Fifo::push`, missing with `PluginProcessor.h`: "never blocks;
overwrites oldest unread slot if full". The new entry goes to the tail and only the most
recent `capacity` entries are kept. -/
def Fifo.push {T : Type} (q : Fifo T) (t : T) : Fifo T :=
  { q with items := (q.items ++ [t]).drop (q.items.length + 1 - q.capacity) }

/-- Modelled from the spec: `juce::FloatVectorOperations::copy (dest, src, num)` is library
code that is not part of the sources; this is the call whose `dest` and `src` both point
into the same buffer `buf`, at offsets `dest` and `src`. It copies `num` values, here one
by one from the lowest index (with `dest` below `src`, as in `process`, this agrees with a
copy through a temporary); a read past the end of the buffer copies nothing. -/
def copyWithin {S : Type} (buf : List S) (dest src num : ℕ) : List S :=
  (List.range num).foldl
    (fun b k => match b[src + k]? with
      | some v => b.set (dest + k) v
      | none => b)
    buf

/-- Modelled from the spec: `juce::FloatVectorOperations::copy (dest, src, num)` is library
code that is not part of the sources; this is the call that copies the first `num` values
of another buffer `src` into `buf` from offset `dest` on. -/
def copyInto {S : Type} (buf : List S) (dest : ℕ) (src : List S) (num : ℕ) : List S :=
  (List.range num).foldl
    (fun b k => match src[k]? with
      | some v => b.set (dest + k) v
      | none => b)
    buf

/-- The two copies of `PathProducer::process` on the mono buffer for one incoming block:
shift the buffer left by `size` samples, then copy the block to the end. This describes
the source for `size <= N` only (`N` the buffer length): for a longer block the count
`monoBuffer.getNumSamples() - size` and the write offset are negative in the source and
its copies are undefined, so the statements below about the buffer and about the
transform calls assume that the blocks are at most `N` samples long. -/
def shiftAndAppend {S : Type} (monoBuffer tempIncomingBuffer : List S) : List S :=
  let size := tempIncomingBuffer.length
  let monoBuffer := copyWithin monoBuffer 0 size (monoBuffer.length - size)
  copyInto monoBuffer (monoBuffer.length - size) tempIncomingBuffer size

/-! ## `PathProducer` -/

/-- The computations `process` hands its data to, which live in `PluginProcessor.h`:
`transform audioData negativeInfinity` is the spectral frame that
`FFTDataGenerator::produceFFTDataForRendering` computes, and
`renderPath renderData fftBounds fftSize binWidth negativeInfinity` the path that
`AnalyzerPathGenerator::generatePath` builds. -/
structure Analysis (S F P B : Type) where
  transform : List S → ℤ → F
  renderPath : F → B → ℕ → ℚ → ℤ → P

/-- The state of a `PathProducer`: the queue of complete audio blocks, the mono buffer,
the FFT data generator (its size and its queue of frames), the path generator (its queue
of paths), the stored channel path, and a record of the calls made so far to
`produceFFTDataForRendering` (buffer, floor) and to `generatePath` (its arguments). -/
structure PathProducer (S F P B : Type) where
  leftChannelFifo : Fifo (List S)
  monoBuffer : List S
  fftSize : ℕ
  fftDataFifo : Fifo F
  pathFifo : Fifo P
  leftChannelFFTPath : P
  fftCalls : List (List S × ℤ)
  pathCalls : List (F × B × ℕ × ℚ × ℤ)

/-- Modelled from the spec: `FFTDataGenerator::produceFFTDataForRendering`, missing with
`PluginProcessor.h`: window, transform and convert to decibels with the floor, then
"enqueue the resulting SpectralFrame into a second fixed-capacity queue". The call is
recorded. -/
def produceFFTDataForRendering {S F P B : Type} (a : Analysis S F P B)
    (pp : PathProducer S F P B) (audioData : List S) (negativeInfinity : ℤ) :
    PathProducer S F P B :=
  { pp with
    fftDataFifo := pp.fftDataFifo.push (a.transform audioData negativeInfinity)
    fftCalls := pp.fftCalls ++ [(audioData, negativeInfinity)] }

/-- Modelled from the spec: `AnalyzerPathGenerator::generatePath`, missing with
`PluginProcessor.h`: builds the path of one frame and puts it in the "small queue of
completed paths". The call is recorded. -/
def generatePath {S F P B : Type} (a : Analysis S F P B) (pp : PathProducer S F P B)
    (renderData : F) (fftBounds : B) (fftSize : ℕ) (binWidth : ℚ) (negativeInfinity : ℤ) :
    PathProducer S F P B :=
  { pp with
    pathFifo := pp.pathFifo.push
      (a.renderPath renderData fftBounds fftSize binWidth negativeInfinity)
    pathCalls := pp.pathCalls ++ [(renderData, fftBounds, fftSize, binWidth, negativeInfinity)] }

/-- The body of the first loop of `process` once `getAudioBuffer` has delivered
`tempIncomingBuffer`: update the mono buffer and send it to the FFT data generator with
the floor `-48`. -/
def consumeBlock {S F P B : Type} (a : Analysis S F P B) (pp : PathProducer S F P B)
    (tempIncomingBuffer : List S) : PathProducer S F P B :=
  let pp := { pp with monoBuffer := shiftAndAppend pp.monoBuffer tempIncomingBuffer }
  produceFFTDataForRendering a pp pp.monoBuffer (-48)

/-- The first loop of `process`:
`while (leftChannelFifo->getNumCompleteBuffersAvailable() > 0)
   if (leftChannelFifo->getAudioBuffer(tempIncomingBuffer)) ...`.
With a block available the pull always delivers one, so the last branch is never taken. -/
def pullBlocks {S F P B : Type} (a : Analysis S F P B) (pp : PathProducer S F P B) :
    PathProducer S F P B :=
  if pp.leftChannelFifo.getNumAvailableForReading > 0 then
    match h : pp.leftChannelFifo.pull with
    | (some tempIncomingBuffer, rest) =>
      pullBlocks a (consumeBlock a { pp with leftChannelFifo := rest } tempIncomingBuffer)
    | (none, _) => pp
  else pp
termination_by pp.leftChannelFifo.items.length
decreasing_by
  simp only [consumeBlock, produceFFTDataForRendering]
  unfold Fifo.pull at h
  split at h
  · simp at h
  · next t tl heq =>
    simp only [Prod.mk.injEq] at h
    rw [← h.2, heq]
    simp

/-- The second loop of `process`:
`while (getNumAvailableFFTDataBlocks() > 0) if (getFFTData(fftData)) generatePath(...)`. -/
def generatePaths {S F P B : Type} (a : Analysis S F P B) (fftBounds : B) (fftSize : ℕ)
    (binWidth : ℚ) (pp : PathProducer S F P B) : PathProducer S F P B :=
  if pp.fftDataFifo.getNumAvailableForReading > 0 then
    match h : pp.fftDataFifo.pull with
    | (some fftData, rest) =>
      generatePaths a fftBounds fftSize binWidth
        (generatePath a { pp with fftDataFifo := rest } fftData fftBounds fftSize binWidth (-48))
    | (none, _) => pp
  else pp
termination_by pp.fftDataFifo.items.length
decreasing_by
  simp only [generatePath]
  unfold Fifo.pull at h
  split at h
  · simp at h
  · next t tl heq =>
    simp only [Prod.mk.injEq] at h
    rw [← h.2, heq]
    simp

/-- The third loop of `process`:
`while (pathProducer.getNumPathsAvailable()) pathProducer.getPath(leftChannelFFTPath);`.
A pull that delivers nothing leaves the stored path as it is. -/
def pullPaths {S F P B : Type} (pp : PathProducer S F P B) : PathProducer S F P B :=
  if pp.pathFifo.getNumAvailableForReading ≠ 0 then
    match h : pp.pathFifo.pull with
    | (some path, rest) => pullPaths { pp with pathFifo := rest, leftChannelFFTPath := path }
    | (none, _) => pp
  else pp
termination_by pp.pathFifo.items.length
decreasing_by
  unfold Fifo.pull at h
  split at h
  · simp at h
  · next t tl heq =>
    simp only [Prod.mk.injEq] at h
    rw [← h.2, heq]
    simp

/-- The bin width `sampleRate / (double) fftSize` computed by `process`. -/
def binWidth (sampleRate : ℚ) (fftSize : ℕ) : ℚ :=
  sampleRate / (fftSize : ℚ)

/-- `PathProducer::process (fftBounds, sampleRate)`. -/
def process {S F P B : Type} (a : Analysis S F P B) (pp : PathProducer S F P B)
    (fftBounds : B) (sampleRate : ℚ) : PathProducer S F P B :=
  let pp := pullBlocks a pp
  let fftSize := pp.fftSize
  let binWidth := binWidth sampleRate fftSize
  let pp := generatePaths a fftBounds fftSize binWidth pp
  pullPaths pp

/-- The state in which the third loop of `process` starts: the first two loops have run. -/
def beforePullPaths {S F P B : Type} (a : Analysis S F P B) (pp : PathProducer S F P B)
    (fftBounds : B) (sampleRate : ℚ) : PathProducer S F P B :=
  let pp := pullBlocks a pp
  let fftSize := pp.fftSize
  let binWidth := binWidth sampleRate fftSize
  generatePaths a fftBounds fftSize binWidth pp

/-! ## Stated behaviour of the mono buffer and of the transform calls -/

/-- The last `n` entries of a list (all of it when it is shorter). -/
def lastSamples {S : Type} (n : ℕ) (l : List S) : List S :=
  l.drop (l.length - n)

/-- One transform per block: the calls `(buffer, floor)` expected from consuming `blocks`
starting with the mono buffer `monoBuffer`, each on the buffer as updated by its block and
with the floor `-48`. -/
def transformCalls {S : Type} (monoBuffer : List S) : List (List S) → List (List S × ℤ)
  | [] => []
  | block :: rest =>
    (shiftAndAppend monoBuffer block, -48)
      :: transformCalls (shiftAndAppend monoBuffer block) rest

/-! ## Layout: `getRenderArea`, `getAnalysisArea`, the grid of `resized`, the curve of `paint` -/

/-- `Rectangle::getRight`: the right edge, `x + w`. -/
def Rectangle.getRight (r : Rectangle) : ℤ := r.x + r.w

/-- Modelled from the spec: `juce::Rectangle::removeFromTop` is library code that is not part
of the sources. It cuts a strip of height `jmin (amountToRemove, h)` off the top; the
rectangle left is returned here (the source discards the strip). -/
def Rectangle.removeFromTop (r : Rectangle) (amountToRemove : ℤ) : Rectangle :=
  let removed := min amountToRemove r.h
  { r with y := r.y + removed, h := r.h - removed }

/-- Modelled from the spec: `juce::Rectangle::removeFromBottom` is library code that is not
part of the sources. It cuts a strip of height `jmin (amountToRemove, h)` off the bottom. -/
def Rectangle.removeFromBottom (r : Rectangle) (amountToRemove : ℤ) : Rectangle :=
  let removed := min amountToRemove r.h
  { r with h := r.h - removed }

/-- Modelled from the spec: `juce::Rectangle::removeFromLeft` is library code that is not
part of the sources. It cuts a strip of width `jmin (amountToRemove, w)` off the left. -/
def Rectangle.removeFromLeft (r : Rectangle) (amountToRemove : ℤ) : Rectangle :=
  let removed := min amountToRemove r.w
  { r with x := r.x + removed, w := r.w - removed }

/-- Modelled from the spec: `juce::Rectangle::removeFromRight` is library code that is not
part of the sources. It cuts a strip of width `jmin (amountToRemove, w)` off the right. -/
def Rectangle.removeFromRight (r : Rectangle) (amountToRemove : ℤ) : Rectangle :=
  let removed := min amountToRemove r.w
  { r with w := r.w - removed }

/-- Modelled from the spec: `juce::Rectangle::contains (Rectangle)` is library code that is
not part of the sources: `other` lies inside `r`, edges included. -/
def Rectangle.contains (r other : Rectangle) : Prop :=
  r.x ≤ other.x ∧ r.y ≤ other.y ∧ other.x + other.w ≤ r.x + r.w ∧ other.y + other.h ≤ r.y + r.h

/-- Containment of rectangles is decided by comparing the four edges. -/
instance Rectangle.decidableContains (r other : Rectangle) : Decidable (r.contains other) := by
  unfold Rectangle.contains
  infer_instance

/-- `ResponseCurveComponent::getRenderArea`, with `getLocalBounds()` passed in. -/
def getRenderArea (localBounds : Rectangle) : Rectangle :=
  let bounds := localBounds
  let bounds := bounds.removeFromTop 12
  let bounds := bounds.removeFromBottom 2
  let bounds := bounds.removeFromLeft 20
  let bounds := bounds.removeFromRight 20
  bounds

/-- `ResponseCurveComponent::getAnalysisArea`, with `getLocalBounds()` passed in. -/
def getAnalysisArea (localBounds : Rectangle) : Rectangle :=
  let bounds := getRenderArea localBounds
  let bounds := bounds.removeFromTop 4
  let bounds := bounds.removeFromBottom 4
  bounds

/-- Modelled from the spec: `juce::mapFromLog10` is library code that is not part of the
sources. The logarithmic mapping of a frequency `value` in `[logRangeMin, logRangeMax]` to
a normalised position, as the library defines it:
`(log10 (value) - log10 (logRangeMin)) / (log10 (logRangeMax) - log10 (logRangeMin))`. -/
noncomputable def mapFromLog10 (value logRangeMin logRangeMax : ℝ) : ℝ :=
  (Real.logb 10 value - Real.logb 10 logRangeMin)
    / (Real.logb 10 logRangeMax - Real.logb 10 logRangeMin)

/-- The x-coordinate `resized` computes for the grid line of the frequency `f`:
`left + width * mapFromLog10(f, 20.f, 20000.f)` with `left` and `width` those of the
analysis area. -/
noncomputable def gridLineX (renderArea : Rectangle) (f : ℝ) : ℝ :=
  let left := renderArea.getX
  let width := renderArea.getWidth
  let normX := mapFromLog10 f 20 20000
  (left : ℝ) + (width : ℝ) * normX

/-- The loop `for (size_t i = 1; i < mags.size(); ++i) responseCurve.lineTo(responseArea.getX() + i, map(mags[i]));`
of `paint`, as the list of its points; `i` is the index of the first magnitude of `mags`
here. The left edge of an analysis area is never negative, so `getX() + i` is the plain sum. -/
def lineTos {K : Type} [Field K] (responseArea : Rectangle) : ℕ → List K → List (K × K)
  | _, [] => []
  | i, m :: rest =>
    (((responseArea.getX : ℤ) : K) + (i : K), responseCurveY responseArea m)
      :: lineTos responseArea (i + 1) rest

/-- The construction of `responseCurve` in `paint`:
`startNewSubPath(responseArea.getX(), map (mags.front()))` followed by the `lineTo` loop.
The result is the list of the points of the path; `none` when `mags` is empty, in which
case `mags.front()` has no element to read. -/
def buildResponseCurve {K : Type} [Field K] (responseArea : Rectangle) (mags : List K) :
    Option (List (K × K)) :=
  match mags with
  | [] => none
  | front :: rest =>
    some ((((responseArea.getX : ℤ) : K), responseCurveY responseArea front)
      :: lineTos responseArea 1 rest)

/-- The response curve of `paint` for a component with the given local bounds: the
magnitudes of the `w` columns of the analysis area, then the path through them. -/
noncomputable def paintResponseCurve {C : Type} (getMagnitudeForFrequency : C → ℝ → ℝ → ℝ)
    (monoChain : MonoChain C) (sampleRate : ℝ) (localBounds : Rectangle) :
    Option (List (ℝ × ℝ)) :=
  let responseArea := getAnalysisArea localBounds
  let w := responseArea.getWidth
  let mags := paintMags getMagnitudeForFrequency monoChain sampleRate w
  buildResponseCurve responseArea mags

/-- The bin index of a tone of frequency `f`: `f / binWidth` rounded to the nearest integer. -/
def binIndex (f binWidth : ℚ) : ℤ :=
  round (f / binWidth)

/-! ## Sample data -/

/-- A sample analysis on integer samples: the frame is the buffer itself and the path is
the frame itself. -/
def exampleAnalysis : Analysis ℤ (List ℤ) (List ℤ) Unit :=
  { transform := fun audioData _ => audioData
    renderPath := fun renderData _ _ _ _ => renderData }

/-- A sample producer: a mono buffer of `4` zeros and one complete block of one sample
waiting in the queue; nothing else pending. -/
def exampleProducer : PathProducer ℤ (List ℤ) (List ℤ) Unit :=
  { leftChannelFifo := { capacity := 30, items := [[1]] }
    monoBuffer := [0, 0, 0, 0]
    fftSize := 4
    fftDataFifo := { capacity := 30, items := [] }
    pathFifo := { capacity := 30, items := [] }
    leftChannelFFTPath := []
    fftCalls := []
    pathCalls := [] }

/-- A sample producer with two blocks waiting, five samples in all, more than the mono
buffer holds. -/
def exampleBusyProducer : PathProducer ℤ (List ℤ) (List ℤ) Unit :=
  { exampleProducer with leftChannelFifo := { capacity := 30, items := [[1, 2], [3, 4, 5]] } }

/-- A sample producer with nothing in any of its queues. -/
def exampleIdleProducer : PathProducer ℤ (List ℤ) (List ℤ) Unit :=
  { leftChannelFifo := { capacity := 30, items := [] }
    monoBuffer := [1, 2, 3, 4]
    fftSize := 4
    fftDataFifo := { capacity := 30, items := [] }
    pathFifo := { capacity := 30, items := [] }
    leftChannelFFTPath := [9]
    fftCalls := []
    pathCalls := [] }

/-! ## Auxiliary lemmas -/

theorem cutStageStep_eq {C K M : Type} [Monoid M] (getMag : C → K → K → M)
    (cut : CutFilter C) (k : Fin 4) (freq sampleRate : K) (mag : M) :
    cutStageStep getMag cut k freq sampleRate mag
      = mag * (if cut.bypassed k then 1 else getMag (cut.coefficients k) freq sampleRate) := by
  unfold cutStageStep
  cases cut.bypassed k <;> simp

theorem cutStages_eq {C K M : Type} [Monoid M] (getMag : C → K → K → M)
    (cut : CutFilter C) (freq sampleRate : K) (mag : M) :
    cutStages getMag cut freq sampleRate mag
      = mag * ((if cut.bypassed 0 then 1 else getMag (cut.coefficients 0) freq sampleRate)
        * ((if cut.bypassed 1 then 1 else getMag (cut.coefficients 1) freq sampleRate)
        * ((if cut.bypassed 2 then 1 else getMag (cut.coefficients 2) freq sampleRate)
        * (if cut.bypassed 3 then 1 else getMag (cut.coefficients 3) freq sampleRate)))) := by
  simp only [cutStages, cutStageStep_eq, mul_assoc]

theorem ite_not_bool {M : Type} (b : Bool) (x y : M) :
    (if (!b) = true then x else y) = if b = true then y else x := by
  cases b <;> rfl

theorem filter_map_prod_eq {A M : Type} [Monoid M] (p : A → Bool) (f : A → M) (l : List A) :
    ((l.filter p).map f).prod = (l.map fun a => if p a then f a else 1).prod := by
  induction l with
  | nil => simp
  | cons a t ih =>
    cases h : p a <;> simp [List.filter_cons, h, ih]

theorem mapToLog10_display (v : ℝ) : mapToLog10 v 20 20000 = 20 * (1000 : ℝ) ^ v := by
  unfold mapToLog10
  have h1 : Real.logb 10 20000 - Real.logb 10 20 = Real.logb 10 1000 := by
    rw [← Real.logb_div (by norm_num) (by norm_num)]
    norm_num
  rw [h1, Real.rpow_add (by norm_num), Real.rpow_logb (by norm_num) (by norm_num) (by norm_num),
    mul_comm v, Real.rpow_mul (by norm_num),
    Real.rpow_logb (by norm_num) (by norm_num) (by norm_num), mul_comm]

theorem display_pow_bounds (v : ℝ) (h0 : 0 ≤ v) (h1 : v < 1) :
    20 ≤ 20 * (1000 : ℝ) ^ v ∧ 20 * (1000 : ℝ) ^ v < 20000 := by
  have a : (1 : ℝ) ≤ (1000 : ℝ) ^ v := Real.one_le_rpow (by norm_num) h0
  have b : (1000 : ℝ) ^ v < (1000 : ℝ) ^ (1 : ℝ) :=
    Real.rpow_lt_rpow_of_exponent_lt (by norm_num) h1
  rw [Real.rpow_one] at b
  constructor <;> nlinarith

theorem run_append_singleton (st : CurveState) (history : List Event) (e : Event) :
    run st (history ++ [e]) = step (run st history) e := by
  simp [run, List.foldl_append]

theorem notifiedSinceLastTick_append_tick (history : List Event) :
    notifiedSinceLastTick (history ++ [Event.tick]) = false := by
  simp [notifiedSinceLastTick, sinceLastTick]

theorem notifiedSinceLastTick_append_notify (history : List Event) :
    notifiedSinceLastTick (history ++ [Event.notify]) = true := by
  simp [notifiedSinceLastTick, sinceLastTick, List.takeWhile_cons]

theorem flag_tracks_notifications (history : List Event) :
    (run CurveState.clear history).parametersChanged = notifiedSinceLastTick history
      ∧ (run CurveState.clear history).updateChainCalls
          + (if (run CurveState.clear history).parametersChanged then 1 else 0)
          ≤ history.count Event.notify := by
  induction history using List.reverseRecOn with
  | nil => simp [run, CurveState.clear, notifiedSinceLastTick, sinceLastTick]
  | append_singleton h e ih =>
    obtain ⟨ih1, ih2⟩ := ih
    rw [run_append_singleton]
    cases e with
    | notify =>
      rw [notifiedSinceLastTick_append_notify]
      refine ⟨rfl, ?_⟩
      simp only [step, parameterValueChanged, List.count_append, List.count_singleton_self,
        if_true]
      split at ih2 <;> omega
    | tick =>
      rw [notifiedSinceLastTick_append_tick]
      cases hflag : (run CurveState.clear h).parametersChanged <;>
        simp [step, timerCallback, compareAndSetBool, hflag, List.count_append] at ih2 ⊢ <;>
        omega

theorem copyWithin_succ {S : Type} (buf : List S) (dest src n : ℕ) :
    copyWithin buf dest src (n + 1)
      = match (copyWithin buf dest src n)[src + n]? with
        | some v => (copyWithin buf dest src n).set (dest + n) v
        | none => copyWithin buf dest src n := by
  simp only [copyWithin, List.range_succ, List.foldl_append, List.foldl_cons, List.foldl_nil]

theorem copyInto_succ {S : Type} (buf : List S) (dest : ℕ) (src : List S) (n : ℕ) :
    copyInto buf dest src (n + 1)
      = match src[n]? with
        | some v => (copyInto buf dest src n).set (dest + n) v
        | none => copyInto buf dest src n := by
  simp only [copyInto, List.range_succ, List.foldl_append, List.foldl_cons, List.foldl_nil]

theorem copyWithin_length {S : Type} (buf : List S) (dest src num : ℕ) :
    (copyWithin buf dest src num).length = buf.length := by
  induction num with
  | zero => simp [copyWithin]
  | succ n ih =>
    rw [copyWithin_succ]
    split <;> simp [ih]

theorem copyInto_length {S : Type} (buf : List S) (dest : ℕ) (src : List S) (num : ℕ) :
    (copyInto buf dest src num).length = buf.length := by
  induction num with
  | zero => simp [copyInto]
  | succ n ih =>
    rw [copyInto_succ]
    split <;> simp [ih]

theorem copyWithin_getElem? {S : Type} (buf : List S) (s num : ℕ)
    (h : s + num ≤ buf.length) (i : ℕ) :
    (copyWithin buf 0 s num)[i]? = if i < num then buf[i + s]? else buf[i]? := by
  induction num generalizing i with
  | zero => simp [copyWithin]
  | succ n ih =>
    have ih' := fun j => ih (by omega) j
    have hlen := copyWithin_length buf 0 s n
    rw [copyWithin_succ, ih' (s + n), if_neg (by omega),
      List.getElem?_eq_getElem (show s + n < buf.length by omega)]
    simp only [List.getElem?_set, hlen, zero_add]
    rw [ih' i]
    by_cases hin : n = i
    · subst hin
      rw [if_pos rfl, if_pos (by omega), if_pos (by omega),
        List.getElem?_eq_getElem (show n + s < buf.length by omega)]
      simp only [Nat.add_comm]
    · rw [if_neg hin]
      by_cases h1 : i < n
      · rw [if_pos h1, if_pos (by omega)]
      · rw [if_neg h1, if_neg (by omega)]

theorem copyInto_getElem? {S : Type} (buf : List S) (dest : ℕ) (src : List S) (num : ℕ)
    (h : dest + num ≤ buf.length) (hs : num ≤ src.length) (i : ℕ) :
    (copyInto buf dest src num)[i]?
      = if dest ≤ i ∧ i < dest + num then src[i - dest]? else buf[i]? := by
  induction num generalizing i with
  | zero =>
    simp only [copyInto, List.range_zero, List.foldl_nil, add_zero]
    rw [if_neg (by omega)]
  | succ n ih =>
    have ih' := fun j => ih (by omega) (by omega) j
    have hlen := copyInto_length buf dest src n
    rw [copyInto_succ, List.getElem?_eq_getElem (show n < src.length by omega)]
    simp only [List.getElem?_set, hlen]
    rw [ih' i]
    by_cases hin : dest + n = i
    · subst hin
      rw [if_pos rfl, if_pos (by omega), if_pos ⟨by omega, by omega⟩, Nat.add_sub_cancel_left]
      exact (List.getElem?_eq_getElem (by omega)).symm
    · rw [if_neg hin]
      by_cases h1 : dest ≤ i ∧ i < dest + n
      · rw [if_pos h1, if_pos ⟨h1.1, by omega⟩]
      · rw [if_neg h1, if_neg (by omega)]

theorem shiftAndAppend_eq {S : Type} (monoBuffer block : List S)
    (h : block.length ≤ monoBuffer.length) :
    shiftAndAppend monoBuffer block = monoBuffer.drop block.length ++ block := by
  apply List.ext_getElem?
  intro i
  simp only [shiftAndAppend, copyWithin_length]
  rw [copyInto_getElem? _ _ _ _ (by rw [copyWithin_length]; omega) (le_refl _),
    copyWithin_getElem? _ _ _ (by omega), List.getElem?_append, List.length_drop,
    List.getElem?_drop]
  by_cases h1 : i < monoBuffer.length - block.length
  · rw [if_neg (by omega), if_pos h1, if_pos h1, Nat.add_comm]
  · rw [if_neg h1]
    by_cases h2 : i < monoBuffer.length
    · rw [if_pos ⟨by omega, by omega⟩, if_neg h1]
    · rw [if_neg (by omega), if_neg h1]
      rw [List.getElem?_eq_none (by omega), List.getElem?_eq_none (by omega)]

theorem pullBlocks_eq_foldl {S F P B : Type} (a : Analysis S F P B) (l : List (List S)) :
    ∀ pp : PathProducer S F P B, pp.leftChannelFifo.items = l →
      pullBlocks a pp
        = l.foldl (consumeBlock a)
            { pp with leftChannelFifo := { pp.leftChannelFifo with items := [] } } := by
  induction l with
  | nil =>
    intro pp h
    rw [pullBlocks]
    simp only [Fifo.getNumAvailableForReading, h, List.length_nil, gt_iff_lt, lt_self_iff_false,
      ↓reduceIte, List.foldl_nil]
    rw [← h]
  | cons b rest ih =>
    intro pp h
    rw [pullBlocks]
    simp only [Fifo.getNumAvailableForReading, h, List.length_cons, gt_iff_lt,
      Nat.zero_lt_succ, ↓reduceIte]
    have hp : pp.leftChannelFifo.pull = (some b, { pp.leftChannelFifo with items := rest }) := by
      simp [Fifo.pull, h]
    split
    · next t q hq =>
      rw [hp] at hq
      simp only [Prod.mk.injEq, Option.some.injEq] at hq
      obtain ⟨rfl, rfl⟩ := hq
      rw [ih _ rfl]
      rfl
    · next q hq =>
      rw [hp] at hq
      simp at hq

theorem generatePaths_eq_foldl {S F P B : Type} (a : Analysis S F P B) (fftBounds : B)
    (fftSize : ℕ) (bw : ℚ) (l : List F) :
    ∀ pp : PathProducer S F P B, pp.fftDataFifo.items = l →
      generatePaths a fftBounds fftSize bw pp
        = l.foldl (fun st fftData => generatePath a st fftData fftBounds fftSize bw (-48))
            { pp with fftDataFifo := { pp.fftDataFifo with items := [] } } := by
  induction l with
  | nil =>
    intro pp h
    rw [generatePaths]
    simp only [Fifo.getNumAvailableForReading, h, List.length_nil, gt_iff_lt, lt_self_iff_false,
      ↓reduceIte, List.foldl_nil]
    rw [← h]
  | cons b rest ih =>
    intro pp h
    rw [generatePaths]
    simp only [Fifo.getNumAvailableForReading, h, List.length_cons, gt_iff_lt,
      Nat.zero_lt_succ, ↓reduceIte]
    have hp : pp.fftDataFifo.pull = (some b, { pp.fftDataFifo with items := rest }) := by
      simp [Fifo.pull, h]
    split
    · next t q hq =>
      rw [hp] at hq
      simp only [Prod.mk.injEq, Option.some.injEq] at hq
      obtain ⟨rfl, rfl⟩ := hq
      rw [ih _ rfl]
      rfl
    · next q hq =>
      rw [hp] at hq
      simp at hq

theorem pullPaths_eq {S F P B : Type} (l : List P) :
    ∀ pp : PathProducer S F P B, pp.pathFifo.items = l →
      pullPaths pp
        = { pp with
            pathFifo := { pp.pathFifo with items := [] }
            leftChannelFFTPath := l.getLast?.getD pp.leftChannelFFTPath } := by
  induction l with
  | nil =>
    intro pp h
    rw [pullPaths]
    simp only [Fifo.getNumAvailableForReading, h, List.length_nil, ne_eq, not_true_eq_false,
      ↓reduceIte, List.getLast?_nil, Option.getD_none]
    rw [← h]
  | cons b rest ih =>
    intro pp h
    rw [pullPaths]
    simp only [Fifo.getNumAvailableForReading, h, List.length_cons, ne_eq,
      Nat.add_one_ne_zero, not_false_eq_true, ↓reduceIte]
    have hp : pp.pathFifo.pull = (some b, { pp.pathFifo with items := rest }) := by
      simp [Fifo.pull, h]
    split
    · next t q hq =>
      rw [hp] at hq
      simp only [Prod.mk.injEq, Option.some.injEq] at hq
      obtain ⟨rfl, rfl⟩ := hq
      rw [ih _ rfl]
      cases rest with
      | nil => rfl
      | cons c tl => simp [List.getLast?_eq_getLast _ (List.cons_ne_nil c tl)]
    · next q hq =>
      rw [hp] at hq
      simp at hq

theorem foldl_consumeBlock_fields {S F P B : Type} (a : Analysis S F P B) (l : List (List S)) :
    ∀ st : PathProducer S F P B,
      (l.foldl (consumeBlock a) st).monoBuffer = l.foldl shiftAndAppend st.monoBuffer
        ∧ (l.foldl (consumeBlock a) st).leftChannelFifo = st.leftChannelFifo
        ∧ (l.foldl (consumeBlock a) st).pathFifo = st.pathFifo
        ∧ (l.foldl (consumeBlock a) st).leftChannelFFTPath = st.leftChannelFFTPath
        ∧ (l.foldl (consumeBlock a) st).pathCalls = st.pathCalls
        ∧ (l.foldl (consumeBlock a) st).fftSize = st.fftSize
        ∧ (l.foldl (consumeBlock a) st).fftCalls.length = st.fftCalls.length + l.length := by
  induction l with
  | nil => intro st; simp
  | cons b rest ih =>
    intro st
    simp only [List.foldl_cons, List.length_cons]
    obtain ⟨h1, h2, h3, h4, h5, h6, h7⟩ := ih (consumeBlock a st b)
    refine ⟨h1, h2, h3, h4, h5, h6, ?_⟩
    rw [h7]
    simp [consumeBlock, produceFFTDataForRendering]
    omega

theorem foldl_generatePath_fields {S F P B : Type} (a : Analysis S F P B) (fftBounds : B)
    (fftSize : ℕ) (bw : ℚ) (l : List F) :
    ∀ st : PathProducer S F P B,
      (l.foldl (fun st fftData => generatePath a st fftData fftBounds fftSize bw (-48))
          st).monoBuffer = st.monoBuffer
        ∧ (l.foldl (fun st fftData => generatePath a st fftData fftBounds fftSize bw (-48))
          st).leftChannelFifo = st.leftChannelFifo
        ∧ (l.foldl (fun st fftData => generatePath a st fftData fftBounds fftSize bw (-48))
          st).fftDataFifo = st.fftDataFifo
        ∧ (l.foldl (fun st fftData => generatePath a st fftData fftBounds fftSize bw (-48))
          st).leftChannelFFTPath = st.leftChannelFFTPath
        ∧ (l.foldl (fun st fftData => generatePath a st fftData fftBounds fftSize bw (-48))
          st).fftCalls = st.fftCalls
        ∧ (l.foldl (fun st fftData => generatePath a st fftData fftBounds fftSize bw (-48))
          st).fftSize = st.fftSize := by
  induction l with
  | nil => intro st; simp
  | cons b rest ih =>
    intro st
    simp only [List.foldl_cons]
    exact ih (generatePath a st b fftBounds fftSize bw (-48))

theorem process_eq {S F P B : Type} (a : Analysis S F P B) (pp : PathProducer S F P B)
    (fftBounds : B) (sampleRate : ℚ) :
    process a pp fftBounds sampleRate
      = { generatePaths a fftBounds (pullBlocks a pp).fftSize
            (binWidth sampleRate (pullBlocks a pp).fftSize) (pullBlocks a pp) with
          pathFifo :=
            { (generatePaths a fftBounds (pullBlocks a pp).fftSize
                (binWidth sampleRate (pullBlocks a pp).fftSize) (pullBlocks a pp)).pathFifo with
              items := [] }
          leftChannelFFTPath :=
            (generatePaths a fftBounds (pullBlocks a pp).fftSize
                (binWidth sampleRate (pullBlocks a pp).fftSize)
                (pullBlocks a pp)).pathFifo.items.getLast?.getD
              (generatePaths a fftBounds (pullBlocks a pp).fftSize
                (binWidth sampleRate (pullBlocks a pp).fftSize)
                (pullBlocks a pp)).leftChannelFFTPath } := by
  simp only [process]
  rw [pullPaths_eq _ _ rfl]

theorem process_monoBuffer {S F P B : Type} (a : Analysis S F P B) (pp : PathProducer S F P B)
    (fftBounds : B) (sampleRate : ℚ) :
    (process a pp fftBounds sampleRate).monoBuffer
      = pp.leftChannelFifo.items.foldl shiftAndAppend pp.monoBuffer := by
  rw [process_eq]
  simp only
  rw [generatePaths_eq_foldl a _ _ _ _ _ rfl,
    (foldl_generatePath_fields a _ _ _ _ _).1,
    pullBlocks_eq_foldl a _ pp rfl, (foldl_consumeBlock_fields a _ _).1]

theorem process_fftCalls_length {S F P B : Type} (a : Analysis S F P B)
    (pp : PathProducer S F P B) (fftBounds : B) (sampleRate : ℚ) :
    (process a pp fftBounds sampleRate).fftCalls.length
      = pp.fftCalls.length + pp.leftChannelFifo.items.length := by
  rw [process_eq]
  simp only
  rw [generatePaths_eq_foldl a _ _ _ _ _ rfl,
    (foldl_generatePath_fields a _ _ _ _ _).2.2.2.2.1,
    pullBlocks_eq_foldl a _ pp rfl, (foldl_consumeBlock_fields a _ _).2.2.2.2.2.2]

theorem shiftAndAppend_length {S : Type} (monoBuffer block : List S)
    (h : block.length ≤ monoBuffer.length) :
    (shiftAndAppend monoBuffer block).length = monoBuffer.length := by
  rw [shiftAndAppend_eq _ _ h, List.length_append, List.length_drop]
  omega

theorem foldl_shiftAndAppend_eq {S : Type} (blocks : List (List S)) :
    ∀ monoBuffer : List S, (∀ b ∈ blocks, b.length ≤ monoBuffer.length) →
      (blocks.foldl shiftAndAppend monoBuffer).length = monoBuffer.length
        ∧ blocks.foldl shiftAndAppend monoBuffer
            = lastSamples monoBuffer.length (monoBuffer ++ blocks.flatten) := by
  induction blocks with
  | nil => intro m _; simp [lastSamples]
  | cons b rest ih =>
    intro m h
    have hb : b.length ≤ m.length := h b (List.mem_cons_self _ _)
    have hl := shiftAndAppend_length m b hb
    have hrest : ∀ c ∈ rest, c.length ≤ (shiftAndAppend m b).length := by
      intro c hc
      rw [hl]
      exact h c (List.mem_cons_of_mem _ hc)
    obtain ⟨ih1, ih2⟩ := ih (shiftAndAppend m b) hrest
    simp only [List.foldl_cons]
    refine ⟨by rw [ih1, hl], ?_⟩
    rw [ih2, hl, shiftAndAppend_eq _ _ hb]
    simp only [lastSamples, List.flatten_cons, List.length_append, List.length_drop,
      List.append_assoc]
    have e1 : m.length - b.length + (b.length + rest.flatten.length) - m.length
        = rest.flatten.length := by omega
    have e2 : m.length + (b.length + rest.flatten.length) - m.length
        = b.length + rest.flatten.length := by omega
    rw [e1, e2, ← List.drop_drop, List.drop_append_of_le_length hb]

theorem foldl_consumeBlock_fftCalls {S F P B : Type} (a : Analysis S F P B)
    (l : List (List S)) :
    ∀ st : PathProducer S F P B,
      (l.foldl (consumeBlock a) st).fftCalls
        = st.fftCalls ++ transformCalls st.monoBuffer l := by
  induction l with
  | nil => intro st; simp [transformCalls]
  | cons b rest ih =>
    intro st
    simp only [List.foldl_cons, transformCalls]
    rw [ih]
    simp [consumeBlock, produceFFTDataForRendering]

theorem transformCalls_length {S : Type} (l : List (List S)) :
    ∀ monoBuffer : List S, (transformCalls monoBuffer l).length = l.length := by
  induction l with
  | nil => intro m; rfl
  | cons b rest ih => intro m; simp [transformCalls, ih]

theorem process_fftCalls {S F P B : Type} (a : Analysis S F P B)
    (pp : PathProducer S F P B) (fftBounds : B) (sampleRate : ℚ) :
    (process a pp fftBounds sampleRate).fftCalls
      = pp.fftCalls ++ transformCalls pp.monoBuffer pp.leftChannelFifo.items := by
  rw [process_eq]
  simp only
  rw [generatePaths_eq_foldl a _ _ _ _ _ rfl,
    (foldl_generatePath_fields a _ _ _ _ _).2.2.2.2.1,
    pullBlocks_eq_foldl a _ pp rfl, foldl_consumeBlock_fftCalls]

theorem Fifo.push_getLast? {T : Type} (q : Fifo T) (t : T) (h : 0 < q.capacity) :
    (q.push t).items.getLast? = some t ∧ (q.push t).capacity = q.capacity := by
  refine ⟨?_, rfl⟩
  simp only [Fifo.push]
  have hle : q.items.length + 1 - q.capacity ≤ q.items.length := by omega
  rw [List.drop_append_of_le_length hle, List.getLast?_append]
  simp

theorem foldl_generatePath_last {S F P B : Type} (a : Analysis S F P B) (fftBounds : B)
    (fftSize : ℕ) (bw : ℚ) (l : List F) (f : F) (st : PathProducer S F P B)
    (hcap : 0 < st.pathFifo.capacity) (hl : l.getLast? = some f) :
    ((l.foldl (fun st fftData => generatePath a st fftData fftBounds fftSize bw (-48))
        st).pathFifo.items).getLast?
      = some (a.renderPath f fftBounds fftSize bw (-48)) := by
  have hcapAll : ∀ (l : List F) (st : PathProducer S F P B),
      (l.foldl (fun st fftData => generatePath a st fftData fftBounds fftSize bw (-48))
        st).pathFifo.capacity = st.pathFifo.capacity := by
    intro l
    induction l with
    | nil => intro st; rfl
    | cons b rest ih => intro st; simp only [List.foldl_cons]; rw [ih]; rfl
  induction l using List.reverseRecOn with
  | nil => simp at hl
  | append_singleton init x _ =>
    simp only [List.getLast?_append, List.getLast?_singleton] at hl
    have hx : x = f := Option.some.inj hl
    subst hx
    rw [List.foldl_append]
    simp only [List.foldl_cons, List.foldl_nil, generatePath]
    have hc := hcapAll init st
    simp only [generatePath] at hc
    exact (Fifo.push_getLast? _ _ (by rw [hc]; exact hcap)).1

theorem pullBlocks_fields {S F P B : Type} (a : Analysis S F P B)
    (pp : PathProducer S F P B) :
    (pullBlocks a pp).fftSize = pp.fftSize
      ∧ (pullBlocks a pp).pathFifo = pp.pathFifo
      ∧ (pullBlocks a pp).leftChannelFFTPath = pp.leftChannelFFTPath := by
  rw [pullBlocks_eq_foldl a _ pp rfl]
  obtain ⟨_, _, h3, h4, _, h6, _⟩ := foldl_consumeBlock_fields a pp.leftChannelFifo.items
    { pp with leftChannelFifo := { pp.leftChannelFifo with items := [] } }
  exact ⟨h6, h3, h4⟩

theorem beforePullPaths_path {S F P B : Type} (a : Analysis S F P B)
    (pp : PathProducer S F P B) (fftBounds : B) (sampleRate : ℚ) :
    (beforePullPaths a pp fftBounds sampleRate).leftChannelFFTPath = pp.leftChannelFFTPath := by
  simp only [beforePullPaths]
  rw [generatePaths_eq_foldl a _ _ _ _ _ rfl, (foldl_generatePath_fields a _ _ _ _ _).2.2.2.1]
  exact (pullBlocks_fields a pp).2.2

theorem foldl_generatePath_pathCalls {S F P B : Type} (a : Analysis S F P B) (fftBounds : B)
    (fftSize : ℕ) (bw : ℚ) (l : List F) :
    ∀ st : PathProducer S F P B,
      (l.foldl (fun st fftData => generatePath a st fftData fftBounds fftSize bw (-48))
          st).pathCalls
        = st.pathCalls ++ l.map fun fftData => (fftData, fftBounds, fftSize, bw, (-48 : ℤ)) := by
  induction l with
  | nil => intro st; simp
  | cons b rest ih =>
    intro st
    simp only [List.foldl_cons, List.map_cons]
    rw [ih]
    simp [generatePath]

theorem process_pathCalls {S F P B : Type} (a : Analysis S F P B)
    (pp : PathProducer S F P B) (fftBounds : B) (sampleRate : ℚ) :
    (process a pp fftBounds sampleRate).pathCalls
      = pp.pathCalls ++ (pullBlocks a pp).fftDataFifo.items.map fun fftData =>
          (fftData, fftBounds, pp.fftSize, binWidth sampleRate pp.fftSize, (-48 : ℤ)) := by
  rw [process_eq]
  simp only
  rw [generatePaths_eq_foldl a _ _ _ _ _ rfl, foldl_generatePath_pathCalls,
    (pullBlocks_fields a pp).1]
  congr 1
  rw [pullBlocks_eq_foldl a _ pp rfl]
  exact (foldl_consumeBlock_fields a _ _).2.2.2.2.1

theorem transformCalls_eq_map {S : Type} (blocks : List (List S)) :
    ∀ monoBuffer : List S,
      transformCalls monoBuffer blocks
        = (List.range blocks.length).map fun k =>
            ((blocks.take (k + 1)).foldl shiftAndAppend monoBuffer, (-48 : ℤ)) := by
  induction blocks with
  | nil => intro m; rfl
  | cons b rest ih =>
    intro m
    simp only [transformCalls, List.length_cons, List.range_succ_eq_map, List.map_cons,
      List.map_map]
    rw [ih]
    rfl

theorem lineTos_getElem? {K : Type} [Field K] (responseArea : Rectangle) (l : List K) :
    ∀ (k j : ℕ), ((lineTos responseArea k l)[j]?).map Prod.fst
      = if j < l.length then some (((responseArea.getX : ℤ) : K) + ((k + j : ℕ) : K))
        else none := by
  induction l with
  | nil => intro k j; simp [lineTos]
  | cons m rest ih =>
    intro k j
    cases j with
    | zero => simp [lineTos]
    | succ j =>
      simp only [lineTos, List.getElem?_cons_succ, List.length_cons, Nat.add_lt_add_iff_right]
      rw [ih (k + 1) j]
      have e : k + 1 + j = k + (j + 1) := by omega
      rw [e]

theorem logb_display_span : Real.logb 10 20000 - Real.logb 10 20 ≠ 0 := by
  have h : Real.logb 10 20 < Real.logb 10 20000 :=
    Real.logb_lt_logb (by norm_num) (by norm_num) (by norm_num)
  linarith

theorem mapFromLog10_mapToLog10 (v : ℝ) : mapFromLog10 (mapToLog10 v 20 20000) 20 20000 = v := by
  unfold mapFromLog10 mapToLog10
  rw [Real.logb_rpow (by norm_num) (by norm_num)]
  field_simp [logb_display_span]

theorem paintMags_length {C : Type} (getMag : C → ℝ → ℝ → ℝ) (monoChain : MonoChain C)
    (sampleRate : ℝ) (w : ℤ) : (paintMags getMag monoChain sampleRate w).length = w.toNat := by
  simp [paintMags]

theorem getRenderArea_eq (x y W H : ℤ) (hW : 40 ≤ W) (hH : 14 ≤ H) :
    getRenderArea ⟨x, y, W, H⟩ = ⟨x + 20, y + 12, W - 40, H - 14⟩ := by
  simp only [getRenderArea, Rectangle.removeFromTop, Rectangle.removeFromBottom,
    Rectangle.removeFromLeft, Rectangle.removeFromRight]
  rw [min_eq_left (by omega : (12 : ℤ) ≤ H), min_eq_left (by omega : (2 : ℤ) ≤ H - 12),
    min_eq_left (by omega : (20 : ℤ) ≤ W), min_eq_left (by omega : (20 : ℤ) ≤ W - 20)]
  congr 1 <;> omega

theorem getAnalysisArea_eq (x y W H : ℤ) (hW : 40 ≤ W) (hH : 22 ≤ H) :
    getAnalysisArea ⟨x, y, W, H⟩ = ⟨x + 20, y + 16, W - 40, H - 22⟩ := by
  simp only [getAnalysisArea]
  rw [getRenderArea_eq x y W H hW (by omega)]
  simp only [Rectangle.removeFromTop, Rectangle.removeFromBottom]
  rw [min_eq_left (by omega : (4 : ℤ) ≤ H - 14), min_eq_left (by omega : (4 : ℤ) ≤ H - 14 - 4)]
  congr 1 <;> omega

theorem transformCalls_eq_lastSamples {S : Type} (blocks : List (List S))
    (monoBuffer : List S) (h : ∀ b ∈ blocks, b.length ≤ monoBuffer.length) :
    transformCalls monoBuffer blocks
      = (List.range blocks.length).map fun k =>
          (lastSamples monoBuffer.length (monoBuffer ++ (blocks.take (k + 1)).flatten),
            (-48 : ℤ)) := by
  rw [transformCalls_eq_map]
  apply List.map_congr_left
  intro k _
  rw [(foldl_shiftAndAppend_eq (blocks.take (k + 1)) monoBuffer
    (fun b hb => h b (List.mem_of_mem_take hb))).2]

theorem lineTos_length {K : Type} [Field K] (responseArea : Rectangle) (l : List K) :
    ∀ k : ℕ, (lineTos responseArea k l).length = l.length := by
  induction l with
  | nil => intro k; rfl
  | cons m rest ih => intro k; simp [lineTos, ih]

theorem buildResponseCurve_eq_none_iff {K : Type} [Field K] (responseArea : Rectangle)
    (mags : List K) : buildResponseCurve responseArea mags = none ↔ mags = [] := by
  cases mags <;> simp [buildResponseCurve]

theorem paintMags_of_pos {C : Type} (getMag : C → ℝ → ℝ → ℝ) (monoChain : MonoChain C)
    (sampleRate : ℝ) (w : ℤ) (hw : 1 ≤ w) :
    ∃ rest, paintMags getMag monoChain sampleRate w
      = gainToDecibels (columnMagnitude getMag monoChain (columnFrequency 0 w) sampleRate)
          defaultMinusInfinitydB :: rest := by
  obtain ⟨n, hn⟩ : ∃ n, w.toNat = n + 1 := Nat.exists_eq_succ_of_ne_zero (by omega)
  simp only [paintMags, hn, List.range_succ_eq_map, List.map_cons]
  exact ⟨_, rfl⟩

/-! ## Theorems -/

/-- C1: for every column frequency, bypass assignment and per-stage magnitudes, the
magnitude `paint` computes is the product over the nine stages of the stage's magnitude
when it contributes and of `1` otherwise; equivalently the product of the magnitudes of
exactly the contributing stages. -/
theorem C1_columnMagnitude_eq_product {C K M : Type} [Monoid M]
    (getMagnitudeForFrequency : C → K → K → M) (monoChain : MonoChain C)
    (freq sampleRate : K) :
    columnMagnitude getMagnitudeForFrequency monoChain freq sampleRate
        = statedMagnitude getMagnitudeForFrequency monoChain freq sampleRate
      ∧ columnMagnitude getMagnitudeForFrequency monoChain freq sampleRate
        = ((Stage.all.filter (contributes monoChain)).map
            (stageMagnitude getMagnitudeForFrequency monoChain freq sampleRate)).prod := by
  have key : columnMagnitude getMagnitudeForFrequency monoChain freq sampleRate
        = statedMagnitude getMagnitudeForFrequency monoChain freq sampleRate := by
    obtain ⟨lc, pk, hc, bl, bp, bh⟩ := monoChain
    cases bl <;> cases bp <;> cases bh <;>
      simp only [columnMagnitude, statedMagnitude, cutStages_eq, Stage.all, contributes,
        stageMagnitude, List.map, List.prod_cons, List.prod_nil, Bool.not_true, Bool.not_false,
        Bool.true_and, Bool.false_and, ite_not_bool, if_true, if_false, mul_one, one_mul,
        mul_assoc, Bool.false_eq_true]
  refine ⟨key, ?_⟩
  rw [key, filter_map_prod_eq]
  rfl

/-- C2: when the LowCut, Peak and HighCut positions are all bypassed, the magnitude `paint`
computes is exactly `1` at every frequency, whatever the coefficients and per-stage bypass
flags are; its decibel value is `0`, so every entry of `mags` is `0` dB. -/
theorem C2_all_bypassed_unity {C : Type} (getMagnitudeForFrequency : C → ℝ → ℝ → ℝ)
    (monoChain : MonoChain C) (sampleRate : ℝ)
    (hLow : monoChain.lowCutBypassed = true) (hPeak : monoChain.peakBypassed = true)
    (hHigh : monoChain.highCutBypassed = true) :
    (∀ freq : ℝ, columnMagnitude getMagnitudeForFrequency monoChain freq sampleRate = 1)
      ∧ gainToDecibels 1 defaultMinusInfinitydB = 0
      ∧ ∀ (w : ℤ) (d : ℝ),
          d ∈ paintMags getMagnitudeForFrequency monoChain sampleRate w → d = 0 := by
  have hmag : ∀ freq : ℝ,
      columnMagnitude getMagnitudeForFrequency monoChain freq sampleRate = 1 := by
    intro freq
    simp [columnMagnitude, hLow, hPeak, hHigh]
  have hdb : gainToDecibels 1 defaultMinusInfinitydB = 0 := by
    simp [gainToDecibels, defaultMinusInfinitydB]
  refine ⟨hmag, hdb, ?_⟩
  intro w d hd
  simp only [paintMags, List.mem_map] at hd
  obtain ⟨i, _, rfl⟩ := hd
  rw [hmag, hdb]

/-- C2 witness: a chain with all three positions bypassed, no stage bypassed and stage
magnitudes that are not `1`. -/
theorem C2_all_bypassed_unity_witness :
    (∀ freq : ℝ, columnMagnitude (fun (c : ℝ) (_ _ : ℝ) => c)
        (⟨⟨fun _ => 2, fun _ => false⟩, 3, ⟨fun _ => 5, fun _ => false⟩, true, true, true⟩ :
          MonoChain ℝ) freq 48000 = 1)
      ∧ gainToDecibels 1 defaultMinusInfinitydB = 0
      ∧ ∀ (w : ℤ) (d : ℝ),
          d ∈ paintMags (fun (c : ℝ) (_ _ : ℝ) => c)
            (⟨⟨fun _ => 2, fun _ => false⟩, 3, ⟨fun _ => 5, fun _ => false⟩, true, true, true⟩ :
              MonoChain ℝ) 48000 w → d = 0 :=
  C2_all_bypassed_unity _ _ _ rfl rfl rfl

/-- C3: after any history of notifications and ticks that starts from a clear flag, the
next tick calls `updateChain` exactly once if a notification arrived since the previous
tick and not at all otherwise, and it leaves the flag clear; the number of recomputes
made so far never exceeds the number of notifications. -/
theorem C3_one_recompute_per_dirty_signal (history : List Event) :
    (timerCallback (run CurveState.clear history)).updateChainCalls
        = (run CurveState.clear history).updateChainCalls
          + (if notifiedSinceLastTick history then 1 else 0)
      ∧ (timerCallback (run CurveState.clear history)).parametersChanged = false
      ∧ (run CurveState.clear history).parametersChanged = notifiedSinceLastTick history
      ∧ (run CurveState.clear history).updateChainCalls ≤ history.count Event.notify
      ∧ (run CurveState.clear (history ++ [Event.tick])).updateChainCalls
          ≤ history.count Event.notify := by
  obtain ⟨h1, h2⟩ := flag_tracks_notifications history
  have h3 := (flag_tracks_notifications (history ++ [Event.tick])).2
  rw [← h1]
  refine ⟨?_, ?_, rfl, by omega, ?_⟩
  · cases hflag : (run CurveState.clear history).parametersChanged <;>
      simp [timerCallback, compareAndSetBool, hflag]
  · cases hflag : (run CurveState.clear history).parametersChanged <;>
      simp [timerCallback, compareAndSetBool, hflag]
  · simp only [List.count_append] at h3
    have : List.count Event.notify [Event.tick] = 0 := by decide
    omega

/-- C4: consuming one block of `s <= N` samples leaves the mono buffer `N` samples long;
the new buffer is the old one from index `s` on followed by the block:
`new[i] = old[i + s]` for `i < N - s` and `new[N - s + j] = block[j]` for `j < s`. -/
theorem C4_block_shifts_left_and_appends {S F P B : Type} (a : Analysis S F P B)
    (pp : PathProducer S F P B) (block : List S)
    (hs : block.length ≤ pp.monoBuffer.length) :
    (consumeBlock a pp block).monoBuffer.length = pp.monoBuffer.length
      ∧ (consumeBlock a pp block).monoBuffer = pp.monoBuffer.drop block.length ++ block
      ∧ (∀ i, i < pp.monoBuffer.length - block.length →
          (consumeBlock a pp block).monoBuffer[i]? = pp.monoBuffer[i + block.length]?)
      ∧ (∀ j, j < block.length →
          (consumeBlock a pp block).monoBuffer[pp.monoBuffer.length - block.length + j]?
            = block[j]?) := by
  have hm : (consumeBlock a pp block).monoBuffer = shiftAndAppend pp.monoBuffer block := rfl
  have heq := shiftAndAppend_eq pp.monoBuffer block hs
  rw [hm]
  refine ⟨shiftAndAppend_length _ _ hs, heq, ?_, ?_⟩
  · intro i hi
    rw [heq, List.getElem?_append_left (by rw [List.length_drop]; exact hi),
      List.getElem?_drop, Nat.add_comm]
  · intro j _
    rw [heq, List.getElem?_append_right (by rw [List.length_drop]; omega), List.length_drop]
    congr 1
    omega

/-- C4 witness: a block of one sample into the buffer of four zeros. -/
theorem C4_block_shifts_left_and_appends_witness :
    ([7] : List ℤ).length ≤ exampleProducer.monoBuffer.length
      ∧ (consumeBlock exampleAnalysis exampleProducer [7]).monoBuffer.length
          = exampleProducer.monoBuffer.length
      ∧ (consumeBlock exampleAnalysis exampleProducer [7]).monoBuffer
          = exampleProducer.monoBuffer.drop ([7] : List ℤ).length ++ [7] :=
  ⟨by decide,
    (C4_block_shifts_left_and_appends exampleAnalysis exampleProducer [7] (by decide)).1,
    (C4_block_shifts_left_and_appends exampleAnalysis exampleProducer [7] (by decide)).2.1⟩

/-- C5: when every queued block is at most `N` samples long, after `process` has consumed
them all the mono buffer still has length `N` and equals the last `N` samples of the
initial buffer followed by all the blocks' samples in order; once at least `N` samples
have been consumed it is exactly the most recent `N` samples. -/
theorem C5_buffer_holds_last_samples {S F P B : Type} (a : Analysis S F P B)
    (pp : PathProducer S F P B) (fftBounds : B) (sampleRate : ℚ)
    (hlen : ∀ block ∈ pp.leftChannelFifo.items, block.length ≤ pp.monoBuffer.length) :
    (process a pp fftBounds sampleRate).monoBuffer.length = pp.monoBuffer.length
      ∧ (process a pp fftBounds sampleRate).monoBuffer
          = lastSamples pp.monoBuffer.length (pp.monoBuffer ++ pp.leftChannelFifo.items.flatten)
      ∧ (pp.monoBuffer.length ≤ pp.leftChannelFifo.items.flatten.length →
          (process a pp fftBounds sampleRate).monoBuffer
            = lastSamples pp.monoBuffer.length pp.leftChannelFifo.items.flatten)
      ∧ (process a pp fftBounds sampleRate).leftChannelFifo.items = [] := by
  obtain ⟨h1, h2⟩ := foldl_shiftAndAppend_eq pp.leftChannelFifo.items pp.monoBuffer hlen
  rw [process_monoBuffer]
  refine ⟨h1, h2, ?_, ?_⟩
  · intro hN
    rw [h2]
    simp only [lastSamples, List.length_append]
    have e : pp.monoBuffer.length + pp.leftChannelFifo.items.flatten.length
          - pp.monoBuffer.length
        = pp.monoBuffer.length
          + (pp.leftChannelFifo.items.flatten.length - pp.monoBuffer.length) := by omega
    rw [e, ← List.drop_drop, List.drop_left]
  · rw [process_eq]
    simp only
    rw [generatePaths_eq_foldl a _ _ _ _ _ rfl, (foldl_generatePath_fields a _ _ _ _ _).2.1,
      pullBlocks_eq_foldl a _ pp rfl, (foldl_consumeBlock_fields a _ _).2.1]

/-- C5 witness: two blocks of two and three samples into a buffer of four. -/
theorem C5_buffer_holds_last_samples_witness :
    (∀ block ∈ exampleBusyProducer.leftChannelFifo.items,
        block.length ≤ exampleBusyProducer.monoBuffer.length)
      ∧ exampleBusyProducer.monoBuffer.length
          ≤ exampleBusyProducer.leftChannelFifo.items.flatten.length
      ∧ (process exampleAnalysis exampleBusyProducer () 48000).monoBuffer
          = lastSamples exampleBusyProducer.monoBuffer.length
              exampleBusyProducer.leftChannelFifo.items.flatten :=
  ⟨by decide, by decide,
    (C5_buffer_holds_last_samples exampleAnalysis exampleBusyProducer () 48000
      (by decide)).2.2.1 (by decide)⟩

/-- C6: when `process` returns no path is left in the path queue, and the stored channel
path is the last entry the path queue had when the third loop started (the path pushed
most recently), or the path stored before if the queue was empty then. When a frame
was rendered in this call, the stored path is the path of the last frame. -/
theorem C6_latest_path_kept {S F P B : Type} (a : Analysis S F P B)
    (pp : PathProducer S F P B) (fftBounds : B) (sampleRate : ℚ) :
    process a pp fftBounds sampleRate = pullPaths (beforePullPaths a pp fftBounds sampleRate)
      ∧ (process a pp fftBounds sampleRate).pathFifo.items = []
      ∧ (process a pp fftBounds sampleRate).leftChannelFFTPath
          = (match (beforePullPaths a pp fftBounds sampleRate).pathFifo.items.getLast? with
            | some path => path
            | none => pp.leftChannelFFTPath)
      ∧ (∀ fftData : F, 0 < pp.pathFifo.capacity →
          (pullBlocks a pp).fftDataFifo.items.getLast? = some fftData →
          (process a pp fftBounds sampleRate).leftChannelFFTPath
            = a.renderPath fftData fftBounds pp.fftSize (binWidth sampleRate pp.fftSize)
                (-48)) := by
  have hproc : process a pp fftBounds sampleRate
      = pullPaths (beforePullPaths a pp fftBounds sampleRate) := rfl
  have hpath : (process a pp fftBounds sampleRate).leftChannelFFTPath
      = (match (beforePullPaths a pp fftBounds sampleRate).pathFifo.items.getLast? with
        | some path => path
        | none => pp.leftChannelFFTPath) := by
    rw [hproc, pullPaths_eq _ _ rfl, beforePullPaths_path]
    simp only
    cases (beforePullPaths a pp fftBounds sampleRate).pathFifo.items.getLast? <;> rfl
  refine ⟨hproc, ?_, hpath, ?_⟩
  · rw [hproc, pullPaths_eq _ _ rfl]
  · intro fftData hcap hlast
    rw [hpath]
    obtain ⟨hsize, hq, _⟩ := pullBlocks_fields a pp
    have hl : (beforePullPaths a pp fftBounds sampleRate).pathFifo.items.getLast?
        = some (a.renderPath fftData fftBounds pp.fftSize (binWidth sampleRate pp.fftSize)
            (-48)) := by
      simp only [beforePullPaths]
      rw [generatePaths_eq_foldl a _ _ _ _ _ rfl, hsize]
      exact foldl_generatePath_last a _ _ _ _ fftData _ (by simpa [hq] using hcap) hlast
    rw [hl]

/-- C6 witness: the sample producer; its one block yields one frame, whose path is
stored. -/
theorem C6_latest_path_kept_witness :
    0 < exampleProducer.pathFifo.capacity
      ∧ (pullBlocks exampleAnalysis exampleProducer).fftDataFifo.items.getLast?
          = some [0, 0, 0, 1]
      ∧ (process exampleAnalysis exampleProducer () 48000).leftChannelFFTPath = [0, 0, 0, 1] :=
  have hlast : (pullBlocks exampleAnalysis exampleProducer).fftDataFifo.items.getLast?
      = some [0, 0, 0, 1] := by
    rw [pullBlocks_eq_foldl exampleAnalysis _ exampleProducer rfl]
    rfl
  ⟨by decide, hlast,
    (C6_latest_path_kept exampleAnalysis exampleProducer () 48000).2.2.2 [0, 0, 0, 1]
      (by decide) hlast⟩

/-- C7: with the audio block queue, the frame queue and the path queue all empty,
`process` changes nothing: no transform, no path, same mono buffer, same stored path. -/
theorem C7_empty_queues_no_op {S F P B : Type} (a : Analysis S F P B)
    (pp : PathProducer S F P B) (fftBounds : B) (sampleRate : ℚ)
    (hBlocks : pp.leftChannelFifo.items = []) (hFrames : pp.fftDataFifo.items = [])
    (hPaths : pp.pathFifo.items = []) :
    process a pp fftBounds sampleRate = pp
      ∧ (process a pp fftBounds sampleRate).fftCalls = pp.fftCalls
      ∧ (process a pp fftBounds sampleRate).pathCalls = pp.pathCalls
      ∧ (process a pp fftBounds sampleRate).monoBuffer = pp.monoBuffer
      ∧ (process a pp fftBounds sampleRate).leftChannelFFTPath = pp.leftChannelFFTPath := by
  have h1 : pullBlocks a pp = pp := by
    rw [pullBlocks]
    simp [Fifo.getNumAvailableForReading, hBlocks]
  have h2 : ∀ (n : ℕ) (bw : ℚ), generatePaths a fftBounds n bw pp = pp := by
    intro n bw
    rw [generatePaths]
    simp [Fifo.getNumAvailableForReading, hFrames]
  have h3 : pullPaths pp = pp := by
    rw [pullPaths]
    simp [Fifo.getNumAvailableForReading, hPaths]
  have h : process a pp fftBounds sampleRate = pp := by
    simp only [process]
    rw [h1, h2, h3]
  rw [h]
  exact ⟨rfl, rfl, rfl, rfl, rfl⟩

/-- C7 witness: the idle sample producer. -/
theorem C7_empty_queues_no_op_witness :
    exampleIdleProducer.leftChannelFifo.items = []
      ∧ exampleIdleProducer.fftDataFifo.items = []
      ∧ exampleIdleProducer.pathFifo.items = []
      ∧ process exampleAnalysis exampleIdleProducer () 48000 = exampleIdleProducer :=
  ⟨rfl, rfl, rfl,
    (C7_empty_queues_no_op exampleAnalysis exampleIdleProducer () 48000 rfl rfl rfl).1⟩

/-- C8: for an analysis area `w >= 1` pixels wide and a column `0 <= i < w`, the frequency
at which `paint` evaluates the chain is `20 * 1000^(i/w)`; it lies in `[20, 20000]` (it
stays below `20000`), and it is `20` at column `0`. -/
theorem C8_columnFrequency_in_display_range (w : ℤ) (i : ℕ) (hw : 1 ≤ w) (hi : (i : ℤ) < w) :
    columnFrequency i w = 20 * (1000 : ℝ) ^ ((i : ℝ) / (w : ℝ))
      ∧ 20 ≤ columnFrequency i w
      ∧ columnFrequency i w ≤ 20000
      ∧ columnFrequency i w < 20000
      ∧ columnFrequency 0 w = 20 := by
  have hwpos : (0 : ℝ) < (w : ℝ) := by exact_mod_cast (by omega : (0 : ℤ) < w)
  have hiw : (i : ℝ) < (w : ℝ) := by exact_mod_cast hi
  have h0 : (0 : ℝ) ≤ (i : ℝ) / (w : ℝ) := div_nonneg (Nat.cast_nonneg i) hwpos.le
  have h1 : (i : ℝ) / (w : ℝ) < 1 := (div_lt_one hwpos).mpr hiw
  have hb := display_pow_bounds _ h0 h1
  have hf : columnFrequency i w = 20 * (1000 : ℝ) ^ ((i : ℝ) / (w : ℝ)) :=
    mapToLog10_display _
  refine ⟨hf, ?_, ?_, ?_, ?_⟩
  · rw [hf]; exact hb.1
  · rw [hf]; exact hb.2.le
  · rw [hf]; exact hb.2
  · unfold columnFrequency
    rw [mapToLog10_display]
    simp

/-- C8 witness: column `1` of an analysis area `2` pixels wide. -/
theorem C8_columnFrequency_in_display_range_witness :
    columnFrequency 1 2 = 20 * (1000 : ℝ) ^ (((1 : ℕ) : ℝ) / ((2 : ℤ) : ℝ))
      ∧ 20 ≤ columnFrequency 1 2
      ∧ columnFrequency 1 2 ≤ 20000
      ∧ columnFrequency 1 2 < 20000
      ∧ columnFrequency 0 2 = 20 :=
  C8_columnFrequency_in_display_range 2 1 (by decide) (by decide)

/-- C9: the decibel-to-pixel map of `paint` is `y(d) = bottom + (d + 24)/48 * (top - bottom)`;
it sends `-24` dB to the bottom of the response area, `+24` dB to its top, `0` dB to the
vertical midpoint, and when `top < bottom` a higher decibel value gives a strictly
smaller `y`. -/
theorem C9_responseCurveY_linear {K : Type} [LinearOrderedField K] (responseArea : Rectangle) :
    (∀ d : K, responseCurveY responseArea d
        = (responseArea.getBottom : K)
          + (d + 24) / 48 * ((responseArea.getY : K) - (responseArea.getBottom : K)))
      ∧ responseCurveY responseArea (-24 : K) = (responseArea.getBottom : K)
      ∧ responseCurveY responseArea (24 : K) = (responseArea.getY : K)
      ∧ responseCurveY responseArea (0 : K)
          = ((responseArea.getBottom : K) + (responseArea.getY : K)) / 2
      ∧ (responseArea.getY < responseArea.getBottom →
          ∀ d₁ d₂ : K, d₁ < d₂ →
            responseCurveY responseArea d₂ < responseCurveY responseArea d₁) := by
  have hform : ∀ d : K, responseCurveY responseArea d
        = (responseArea.getBottom : K)
          + (d + 24) / 48 * ((responseArea.getY : K) - (responseArea.getBottom : K)) := by
    intro d
    simp only [responseCurveY, jmap]
    ring
  refine ⟨hform, ?_, ?_, ?_, ?_⟩
  · rw [hform]; ring
  · rw [hform]; ring
  · rw [hform]; ring
  · intro hlt d₁ d₂ hd
    have hneg : ((responseArea.getY : K) - (responseArea.getBottom : K)) < 0 := by
      have : (responseArea.getY : K) < (responseArea.getBottom : K) := by exact_mod_cast hlt
      linarith
    rw [hform, hform]
    have hd' : (d₁ + 24) / 48 < (d₂ + 24) / 48 := by
      apply div_lt_div_of_pos_right _ (by norm_num)
      linarith
    have := mul_lt_mul_of_neg_right hd' hneg
    linarith

/-- C9 witness: the area with top `16` and height `48` (bottom `64`) over the rationals;
`12` dB lies above `-12` dB on screen. -/
theorem C9_responseCurveY_linear_witness :
    (⟨20, 16, 100, 48⟩ : Rectangle).getY < (⟨20, 16, 100, 48⟩ : Rectangle).getBottom
      ∧ (-12 : ℚ) < 12
      ∧ responseCurveY (⟨20, 16, 100, 48⟩ : Rectangle) (12 : ℚ)
          < responseCurveY (⟨20, 16, 100, 48⟩ : Rectangle) (-12 : ℚ) :=
  ⟨by decide, by norm_num,
    (C9_responseCurveY_linear (⟨20, 16, 100, 48⟩ : Rectangle)).2.2.2.2 (by decide)
      (-12 : ℚ) 12 (by norm_num)⟩

/-- C10 counterexample: with a mono buffer of `N = 4` samples and one block of a single
sample waiting, `process` triggers a transform although only `1 < 4` samples have been
consumed. -/
theorem C10_counterexample_transform_before_window_filled :
    exampleProducer.leftChannelFifo.items.flatten.length < exampleProducer.monoBuffer.length
      ∧ exampleProducer.fftCalls = []
      ∧ (process exampleAnalysis exampleProducer () 48000).fftCalls
          = [([0, 0, 0, 1], -48)] := by
  refine ⟨by decide, rfl, ?_⟩
  rw [process_fftCalls]
  rfl

/-- C10 (amended): when the waiting blocks are at most `N` samples long, `process` triggers
one transform for every block it consumes, however few samples have been consumed so far;
the calls made before are kept, and with no block available none is added. -/
theorem C10_one_transform_per_consumed_block {S F P B : Type} (a : Analysis S F P B)
    (pp : PathProducer S F P B) (fftBounds : B) (sampleRate : ℚ)
    (hlen : ∀ block ∈ pp.leftChannelFifo.items, block.length ≤ pp.monoBuffer.length) :
    (∃ calls : List (List S × ℤ),
        (process a pp fftBounds sampleRate).fftCalls = pp.fftCalls ++ calls
          ∧ calls.length = pp.leftChannelFifo.items.length
          ∧ ∀ call ∈ calls, call.1.length = pp.monoBuffer.length ∧ call.2 = -48)
      ∧ (process a pp fftBounds sampleRate).fftCalls.length
          = pp.fftCalls.length + pp.leftChannelFifo.items.length := by
  refine ⟨⟨transformCalls pp.monoBuffer pp.leftChannelFifo.items, process_fftCalls a pp _ _,
    transformCalls_length _ _, ?_⟩, process_fftCalls_length a pp _ _⟩
  intro call hcall
  rw [transformCalls_eq_lastSamples _ _ hlen, List.mem_map] at hcall
  obtain ⟨k, _, rfl⟩ := hcall
  refine ⟨?_, rfl⟩
  simp only [lastSamples, List.length_drop, List.length_append]
  omega

/-- C10 witness: the sample producer, whose one block of a single sample triggers one
transform with `1 < 4` samples consumed. -/
theorem C10_one_transform_per_consumed_block_witness :
    (∀ block ∈ exampleProducer.leftChannelFifo.items,
        block.length ≤ exampleProducer.monoBuffer.length)
      ∧ exampleProducer.leftChannelFifo.items.flatten.length
          < exampleProducer.monoBuffer.length
      ∧ (process exampleAnalysis exampleProducer () 48000).fftCalls.length
          = exampleProducer.fftCalls.length + exampleProducer.leftChannelFifo.items.length :=
  ⟨by decide, by decide,
    (C10_one_transform_per_consumed_block exampleAnalysis exampleProducer () 48000
      (by decide)).2⟩

/-- C11 counterexample: for a component `40` pixels wide the analysis area is `0` pixels
wide, `mags` is empty and the read `mags.front()` finds no element: no curve is built. -/
theorem C11_counterexample_front_of_empty_mags :
    (getAnalysisArea ⟨0, 0, 40, 100⟩).getWidth = 0
      ∧ paintMags (fun (c : ℝ) (_ _ : ℝ) => c)
          (⟨⟨fun _ => 2, fun _ => false⟩, 3, ⟨fun _ => 5, fun _ => false⟩, false, false,
            false⟩ : MonoChain ℝ) 48000 (getAnalysisArea ⟨0, 0, 40, 100⟩).getWidth = []
      ∧ (paintMags (fun (c : ℝ) (_ _ : ℝ) => c)
          (⟨⟨fun _ => 2, fun _ => false⟩, 3, ⟨fun _ => 5, fun _ => false⟩, false, false,
            false⟩ : MonoChain ℝ) 48000 (getAnalysisArea ⟨0, 0, 40, 100⟩).getWidth).head?
          = none
      ∧ paintResponseCurve (fun (c : ℝ) (_ _ : ℝ) => c)
          (⟨⟨fun _ => 2, fun _ => false⟩, 3, ⟨fun _ => 5, fun _ => false⟩, false, false,
            false⟩ : MonoChain ℝ) 48000 ⟨0, 0, 40, 100⟩ = none := by
  have hw : (getAnalysisArea ⟨0, 0, 40, 100⟩).getWidth = 0 := by decide
  refine ⟨hw, ?_, ?_, ?_⟩
  · rw [hw]; simp [paintMags]
  · rw [hw]; simp [paintMags]
  · simp only [paintResponseCurve]
    rw [buildResponseCurve_eq_none_iff, hw]
    simp [paintMags]

/-- C11 (amended): for every component size whose analysis area is at least one pixel wide
(`w >= 1`), building the response curve in `paint` does not fail: `mags.front()` reads
the magnitude of column `0`, and the curve gets one point per column. -/
theorem C11_first_magnitude_exists {C : Type} (getMagnitudeForFrequency : C → ℝ → ℝ → ℝ)
    (monoChain : MonoChain C) (sampleRate : ℝ) (localBounds : Rectangle)
    (hw : 1 ≤ (getAnalysisArea localBounds).getWidth) :
    (paintMags getMagnitudeForFrequency monoChain sampleRate
        (getAnalysisArea localBounds).getWidth).head?
        = some (gainToDecibels
            (columnMagnitude getMagnitudeForFrequency monoChain
              (columnFrequency 0 (getAnalysisArea localBounds).getWidth) sampleRate)
            defaultMinusInfinitydB)
      ∧ ∃ points : List (ℝ × ℝ),
          paintResponseCurve getMagnitudeForFrequency monoChain sampleRate localBounds
            = some points
          ∧ (points.length : ℤ) = (getAnalysisArea localBounds).getWidth
          ∧ points.head?.map Prod.fst = some ((getAnalysisArea localBounds).getX : ℝ) := by
  obtain ⟨rest, hm⟩ := paintMags_of_pos getMagnitudeForFrequency monoChain sampleRate
    (getAnalysisArea localBounds).getWidth hw
  have hlen := paintMags_length getMagnitudeForFrequency monoChain sampleRate
    (getAnalysisArea localBounds).getWidth
  refine ⟨by rw [hm]; rfl, ?_⟩
  simp only [paintResponseCurve]
  rw [hm] at hlen ⊢
  refine ⟨_, rfl, ?_, rfl⟩
  simp only [List.length_cons, lineTos_length] at hlen ⊢
  omega

/-- C11 witness: a component `600` by `92` pixels, the size that the editor, fixed at
`600` by `400`, gives the response curve; its analysis area is `560` pixels wide. -/
theorem C11_first_magnitude_exists_witness :
    1 ≤ (getAnalysisArea ⟨0, 0, 600, 92⟩).getWidth
      ∧ (getAnalysisArea ⟨0, 0, 600, 92⟩).getWidth = 560
      ∧ ∃ points : List (ℝ × ℝ),
          paintResponseCurve (fun (c : ℝ) (_ _ : ℝ) => c)
              (⟨⟨fun _ => 2, fun _ => false⟩, 3, ⟨fun _ => 5, fun _ => false⟩, false, false,
                false⟩ : MonoChain ℝ) 48000 ⟨0, 0, 600, 92⟩ = some points
            ∧ (points.length : ℤ) = (getAnalysisArea ⟨0, 0, 600, 92⟩).getWidth
            ∧ points.head?.map Prod.fst = some ((getAnalysisArea ⟨0, 0, 600, 92⟩).getX : ℝ) :=
  ⟨by decide, by decide,
    (C11_first_magnitude_exists (fun (c : ℝ) (_ _ : ℝ) => c) _ 48000 ⟨0, 0, 600, 92⟩
      (by decide)).2⟩

/-- C12: the bin width `process` computes, and hands to `generatePath` for every frame, is
`sampleRate / fftSize`; for `48000` and `4096` it is exactly `11.71875`, and the bin index
of a `1000` Hz tone is `85`. -/
theorem C12_binWidth_and_bin_of_1kHz {S F P B : Type} (a : Analysis S F P B)
    (pp : PathProducer S F P B) (fftBounds : B) (sampleRate : ℚ) :
    binWidth sampleRate pp.fftSize = sampleRate / (pp.fftSize : ℚ)
      ∧ (process a pp fftBounds sampleRate).pathCalls
          = pp.pathCalls ++ (pullBlocks a pp).fftDataFifo.items.map (fun fftData =>
              (fftData, fftBounds, pp.fftSize, sampleRate / (pp.fftSize : ℚ), (-48 : ℤ)))
      ∧ binWidth 48000 4096 = 11.71875
      ∧ (11.72 : ℚ) - 1 / 100 < binWidth 48000 4096 ∧ binWidth 48000 4096 < 11.72 + 1 / 100
      ∧ binIndex 1000 (binWidth 48000 4096) = 85 := by
  have hbw : binWidth 48000 4096 = 11.71875 := by
    unfold binWidth
    norm_num
  refine ⟨rfl, process_pathCalls a pp fftBounds sampleRate, hbw, ?_, ?_, ?_⟩
  · rw [hbw]; norm_num
  · rw [hbw]; norm_num
  · rw [hbw]
    unfold binIndex
    rw [round_eq, Int.floor_eq_iff]
    constructor <;> norm_num

/-- C14 counterexample: at the sample rate `22050` (Nyquist `11025`), column `11` of an
analysis area `12` pixels wide is evaluated at `20 * 1000^(11/12)`, about `11247` Hz, which
is not below `sr / 2`. -/
theorem C14_counterexample_column_above_nyquist :
    (1 : ℤ) ≤ 12 ∧ ((11 : ℕ) : ℤ) < 12
      ∧ columnFrequency 11 12 = 20 * (1000 : ℝ) ^ (((11 : ℕ) : ℝ) / ((12 : ℤ) : ℝ))
      ∧ ¬ (columnFrequency 11 12 < (22050 : ℝ) / 2) := by
  have hf : columnFrequency 11 12 = 20 * (1000 : ℝ) ^ (((11 : ℕ) : ℝ) / ((12 : ℤ) : ℝ)) :=
    mapToLog10_display _
  refine ⟨by decide, by decide, hf, ?_⟩
  rw [hf]
  intro hlt
  have hx0 : (0 : ℝ) ≤ (1000 : ℝ) ^ (((11 : ℕ) : ℝ) / ((12 : ℤ) : ℝ)) :=
    Real.rpow_nonneg (by norm_num) _
  have hx : (1000 : ℝ) ^ (((11 : ℕ) : ℝ) / ((12 : ℤ) : ℝ)) < 551.25 := by linarith
  have hpow : ((1000 : ℝ) ^ (((11 : ℕ) : ℝ) / ((12 : ℤ) : ℝ))) ^ (12 : ℕ)
      = (1000 : ℝ) ^ (11 : ℕ) := by
    rw [← Real.rpow_natCast, ← Real.rpow_mul (by norm_num), ← Real.rpow_natCast]
    congr 1
    norm_num
  have hlt12 := pow_lt_pow_left₀ hx hx0 (by norm_num : (12 : ℕ) ≠ 0)
  rw [hpow] at hlt12
  norm_num at hlt12

/-- C14 (amended): for every sample rate `sr >= 40000`, every width `w >= 1` and every
column `0 <= i < w`, the frequency `20 * 1000^(i/w)` at which `paint` evaluates a stage
satisfies `0 < f < sr / 2`. -/
theorem C14_column_below_nyquist_from_40k (sr : ℝ) (w : ℤ) (i : ℕ) (hsr : 40000 ≤ sr)
    (hw : 1 ≤ w) (hi : (i : ℤ) < w) :
    columnFrequency i w = 20 * (1000 : ℝ) ^ ((i : ℝ) / (w : ℝ))
      ∧ 0 < columnFrequency i w ∧ columnFrequency i w < sr / 2 := by
  have hwpos : (0 : ℝ) < (w : ℝ) := by exact_mod_cast (by omega : (0 : ℤ) < w)
  have hiw : (i : ℝ) < (w : ℝ) := by exact_mod_cast hi
  have h0 : (0 : ℝ) ≤ (i : ℝ) / (w : ℝ) := div_nonneg (Nat.cast_nonneg i) hwpos.le
  have h1 : (i : ℝ) / (w : ℝ) < 1 := (div_lt_one hwpos).mpr hiw
  have hb := display_pow_bounds _ h0 h1
  have hf : columnFrequency i w = 20 * (1000 : ℝ) ^ ((i : ℝ) / (w : ℝ)) :=
    mapToLog10_display _
  refine ⟨hf, ?_, ?_⟩
  · rw [hf]; linarith [hb.1]
  · rw [hf]; linarith [hb.2]

/-- C14 witness: the last column of an area `12` pixels wide at `44100` Hz. -/
theorem C14_column_below_nyquist_from_40k_witness :
    (40000 : ℝ) ≤ 44100 ∧ (1 : ℤ) ≤ 12 ∧ ((11 : ℕ) : ℤ) < 12
      ∧ 0 < columnFrequency 11 12 ∧ columnFrequency 11 12 < (44100 : ℝ) / 2 :=
  ⟨by norm_num, by decide, by decide,
    (C14_column_below_nyquist_from_40k 44100 12 11 (by norm_num) (by decide) (by decide)).2⟩

/-- C15: for an analysis area with left edge `L` and width `w >= 1` and a column
`0 <= i < w`, the grid x-coordinate of `resized` at the frequency `paint` gives column `i`
is `L + i`, which is the x-coordinate of point `i` of the response curve; the grid's
frequency-to-position map undoes the curve's position-to-frequency map. -/
theorem C15_grid_x_matches_curve_x (responseArea : Rectangle) (i : ℕ)
    (hw : 1 ≤ responseArea.getWidth) (hi : (i : ℤ) < responseArea.getWidth) :
    gridLineX responseArea (columnFrequency i responseArea.getWidth)
        = (responseArea.getX : ℝ) + (i : ℝ)
      ∧ (∀ v : ℝ, mapFromLog10 (mapToLog10 v 20 20000) 20 20000 = v)
      ∧ ∀ mags : List ℝ, (mags.length : ℤ) = responseArea.getWidth →
          ∃ points, buildResponseCurve responseArea mags = some points
            ∧ (points[i]?).map Prod.fst = some ((responseArea.getX : ℝ) + (i : ℝ)) := by
  have hwpos : ((responseArea.getWidth : ℤ) : ℝ) ≠ 0 := by
    have : (0 : ℤ) < responseArea.getWidth := by omega
    exact_mod_cast this.ne'
  refine ⟨?_, mapFromLog10_mapToLog10, ?_⟩
  · simp only [gridLineX, columnFrequency]
    rw [mapFromLog10_mapToLog10]
    field_simp
  · intro mags hlen
    cases mags with
    | nil =>
      simp only [List.length_nil, Nat.cast_zero] at hlen
      omega
    | cons front rest =>
      refine ⟨_, rfl, ?_⟩
      cases i with
      | zero => simp
      | succ j =>
        have hj : j < rest.length := by
          simp only [List.length_cons] at hlen
          omega
        rw [List.getElem?_cons_succ, lineTos_getElem?, if_pos hj]
        congr 1
        push_cast
        ring

/-- C15 witness: column `1` of an area `2` pixels wide with left edge `20`. -/
theorem C15_grid_x_matches_curve_x_witness :
    1 ≤ (⟨20, 16, 2, 48⟩ : Rectangle).getWidth
      ∧ ((1 : ℕ) : ℤ) < (⟨20, 16, 2, 48⟩ : Rectangle).getWidth
      ∧ gridLineX ⟨20, 16, 2, 48⟩ (columnFrequency 1 (⟨20, 16, 2, 48⟩ : Rectangle).getWidth)
          = (((⟨20, 16, 2, 48⟩ : Rectangle).getX : ℤ) : ℝ) + ((1 : ℕ) : ℝ) :=
  ⟨by decide, by decide,
    (C15_grid_x_matches_curve_x ⟨20, 16, 2, 48⟩ 1 (by decide) (by decide)).1⟩

/-- C16: for local bounds `(x, y, W, H)` with `W >= 40` and `H >= 22`, `getRenderArea`
returns `(x + 20, y + 12, W - 40, H - 14)` and `getAnalysisArea` returns
`(x + 20, y + 16, W - 40, H - 22)`; the analysis area lies in the render area, which lies
in the local bounds, and `paint` samples `W - 40` pixel columns. -/
theorem C16_render_and_analysis_area (x y W H : ℤ) (hW : 40 ≤ W) (hH : 22 ≤ H) :
    getRenderArea ⟨x, y, W, H⟩ = ⟨x + 20, y + 12, W - 40, H - 14⟩
      ∧ getAnalysisArea ⟨x, y, W, H⟩ = ⟨x + 20, y + 16, W - 40, H - 22⟩
      ∧ (getRenderArea ⟨x, y, W, H⟩).contains (getAnalysisArea ⟨x, y, W, H⟩)
      ∧ (⟨x, y, W, H⟩ : Rectangle).contains (getRenderArea ⟨x, y, W, H⟩)
      ∧ ∀ (C : Type) (getMagnitudeForFrequency : C → ℝ → ℝ → ℝ) (monoChain : MonoChain C)
          (sampleRate : ℝ),
          ((paintMags getMagnitudeForFrequency monoChain sampleRate
              (getAnalysisArea ⟨x, y, W, H⟩).getWidth).length : ℤ) = W - 40 := by
  have hr := getRenderArea_eq x y W H hW (by omega)
  have ha := getAnalysisArea_eq x y W H hW hH
  refine ⟨hr, ha, ?_, ?_, ?_⟩
  · rw [hr, ha]
    simp only [Rectangle.contains]
    omega
  · rw [hr]
    simp only [Rectangle.contains]
    omega
  · intro C getMag chain sr
    rw [paintMags_length, ha]
    simp only [Rectangle.getWidth]
    omega

/-- C16 witness: a component `600` by `100` pixels. -/
theorem C16_render_and_analysis_area_witness :
    (40 : ℤ) ≤ 600 ∧ (22 : ℤ) ≤ 100
      ∧ getRenderArea ⟨0, 0, 600, 100⟩ = ⟨0 + 20, 0 + 12, 600 - 40, 100 - 14⟩
      ∧ getAnalysisArea ⟨0, 0, 600, 100⟩ = ⟨0 + 20, 0 + 16, 600 - 40, 100 - 22⟩ :=
  ⟨by decide, by decide,
    (C16_render_and_analysis_area 0 0 600 100 (by decide) (by decide)).1,
    (C16_render_and_analysis_area 0 0 600 100 (by decide) (by decide)).2.1⟩

end SimpleEQ
